import Mathlib

/-!
Shallow embedding of the MAG trading-system analyzer core
(src/mag/src/analyzer.py and src/mag/src/database.py).

Modelling conventions:
* dates are natural numbers (the source keeps string-sortable dates; only
  their total order is ever used);
* SQL tables are Lean lists; ORDER BY date DESC is an insertion sort;
* Python floats are rationals; Python round is round-half-to-even;
* nullable columns are Option Int; Python dict.get with a default is
  Option.getD; Python integer truthiness on the 0/1 flag columns is
  a comparison against 0;
* the sqlite store is a DB structure holding the coin_daily_data and
  special_nodes tables; functions that write rows return a new DB.
-/

namespace Mag

/-- Python round: round half to even (used by the interpolator). -/
def pythonRound (q : ℚ) : ℤ :=
  if q - (⌊q⌋ : ℚ) < 1/2 then ⌊q⌋
  else if 1/2 < q - (⌊q⌋ : ℚ) then ⌊q⌋ + 1
  else if ⌊q⌋ % 2 = 0 then ⌊q⌋ else ⌊q⌋ + 1

/-- One row of the coin_daily_data table (database.py, init_database).
The informational shelin_point column is never read by the analyzer and
is omitted.  The is_cn_stock column is added by
migrations/add_cn_stock_field.py (domestic A-share flag). -/
structure DailyRecord where
  date : Nat
  coin : String
  phase_type : String
  phase_days : Option Int
  offchain_index : Int
  break_index : Option Int
  is_dragon_leader : Int
  is_us_stock : Int
  is_cn_stock : Int
  is_approaching : Int
deriving DecidableEq

/-- One row of the special_nodes table (database.py, init_database);
the table has UNIQUE(date, coin, node_type). -/
structure SpecialNode where
  date : Nat
  coin : String
  node_type : String
  description : String
  offchain_index : Option Int
  break_index : Option Int
deriving DecidableEq

/-- The sqlite store: the two tables the analyzer reads and writes. -/
structure DB where
  records : List DailyRecord
  specials : List SpecialNode
deriving DecidableEq

/-- Insert one record into a date-descending list, keeping it sorted. -/
def insertByDateDesc (r : DailyRecord) : List DailyRecord → List DailyRecord
  | [] => [r]
  | x :: xs => if x.date ≤ r.date then r :: x :: xs else x :: insertByDateDesc r xs

/-- ORDER BY date DESC. -/
def sortByDateDesc (rs : List DailyRecord) : List DailyRecord :=
  rs.foldr insertByDateDesc []

/-- MagDatabase.get_coin_data: SELECT * WHERE coin = ? AND date = ?. -/
def get_coin_data (db : DB) (coin : String) (date : Nat) : Option DailyRecord :=
  db.records.find? (fun r => decide (r.coin = coin ∧ r.date = date))

/-- MagDatabase.get_coin_history: rows of one coin, date descending,
LIMIT given. -/
def get_coin_history (db : DB) (coin : String) (limit : Nat) : List DailyRecord :=
  (sortByDateDesc (db.records.filter (fun r => decide (r.coin = coin)))).take limit

/-- MagDatabase.get_previous_day_data: most recent row strictly before
the given date. -/
def get_previous_day_data (db : DB) (coin : String) (current_date : Nat) :
    Option DailyRecord :=
  (sortByDateDesc (db.records.filter
    (fun r => decide (r.coin = coin ∧ r.date < current_date)))).head?

/-- MagDatabase.get_dragon_leaders: SELECT * WHERE date = ? AND
is_dragon_leader = 1. -/
def get_dragon_leaders (db : DB) (date : Nat) : List DailyRecord :=
  db.records.filter (fun r => decide (r.date = date ∧ r.is_dragon_leader = 1))

/-- MagDatabase._interpolate_offchain_index: linear interpolation of the
off-chain index at the break-index threshold, rounded Python-style. -/
def interpolate_offchain_index (off1 off2 break1 break2 target_break : ℤ) : ℤ :=
  if break1 = break2 then off1
  else
    let ratio : ℚ := ((target_break : ℚ) - (break1 : ℚ)) / ((break2 : ℚ) - (break1 : ℚ))
    let interpolated : ℚ := (off1 : ℚ) + ((off2 : ℚ) - (off1 : ℚ)) * ratio
    pythonRound interpolated

/-- MagDatabase.find_last_phase_node: most recent day-1 row of the given
phase strictly before the given date (scans the 100 most recent rows). -/
def find_last_phase_node (db : DB) (coin phase_type : String) (before_date : Nat) :
    Option (Nat × ℤ) :=
  (get_coin_history db coin 100).findSome? (fun r =>
    if r.date ≥ before_date then none
    else if r.phase_type = phase_type ∧ r.phase_days = some 1 then
      some (r.date, r.offchain_index)
    else none)

/-- Loop body of MagDatabase.find_crossing_node: walk the date-descending
rows, pairing each row with the chronologically previous one, and return
the first pair whose break indices straddle the threshold in the given
direction, with the off-chain index interpolated at the threshold. -/
def crossingScan (threshold : ℤ) (cross_direction : String) :
    List DailyRecord → Option (Nat × ℤ)
  | current :: previous :: rest =>
    match current.break_index, previous.break_index with
    | some cb, some pb =>
      let crossed : Bool :=
        if cross_direction = "down" then decide (pb ≥ threshold ∧ cb < threshold)
        else if cross_direction = "up" then decide (pb < threshold ∧ cb ≥ threshold)
        else false
      if crossed then
        some (current.date,
          interpolate_offchain_index previous.offchain_index current.offchain_index
            pb cb threshold)
      else crossingScan threshold cross_direction (previous :: rest)
    | _, _ => crossingScan threshold cross_direction (previous :: rest)
  | _ => none

/-- MagDatabase.find_crossing_node: find the most recent break-index
crossing of the threshold strictly before the given date. -/
def find_crossing_node (db : DB) (coin : String) (before_date : Nat)
    (threshold : ℤ) (cross_direction : String) : Option (Nat × ℤ) :=
  let records := sortByDateDesc (db.records.filter
    (fun r => decide (r.coin = coin ∧ r.date < before_date)))
  if records.length < 2 then none
  else crossingScan threshold cross_direction records

/-- MagAnalyzer._detect_key_node: classify today's record into one of the
four key-node types, phase-day checks first, break crossings second. -/
def detect_key_node (db : DB) (coin : String) (coin_data : DailyRecord) :
    Option String :=
  let current_date := coin_data.date
  if coin_data.phase_type = "进场期" ∧ coin_data.phase_days = some 1 then
    some "enter_phase_day1"
  else if coin_data.phase_type = "退场期" ∧ coin_data.phase_days = some 1 then
    some "exit_phase_day1"
  else
    match get_previous_day_data db coin current_date, coin_data.break_index with
    | some previous_data, some break_index =>
      match previous_data.break_index with
      | some prev_break =>
        if prev_break ≥ 200 ∧ break_index < 200 then some "break_200"
        else if prev_break < 0 ∧ break_index ≥ 0 then some "break_0"
        else none
      | none => none
    | _, _ => none

/-- A reference-node candidate: date, off-chain index at that node, and
the node type under which it was selected. -/
structure RefNode where
  date : Nat
  offchain_index : ℤ
  node_type : String
deriving DecidableEq

/-- Wrap an optional (date, index) lookup result as a candidate list. -/
def refCandidate (r : Option (Nat × ℤ)) (t : String) : List RefNode :=
  match r with
  | some p => [⟨p.1, p.2, t⟩]
  | none => []

/-- Python max(candidates, key=date): first candidate of maximal date
(the first one wins a tie, as in CPython). -/
def pickLatest : List RefNode → Option RefNode
  | [] => none
  | c :: cs => some (cs.foldl (fun best x => if best.date < x.date then x else best) c)

/-- The node-type-specific candidate set assembled by
MagAnalyzer._find_reference_node, in the order the source builds it. -/
def reference_candidates (db : DB) (coin : String) (current_date : Nat)
    (node_type : String) : List RefNode :=
  if node_type = "enter_phase_day1" then
    refCandidate (find_crossing_node db coin current_date 200 "down") "break_200" ++
    refCandidate (find_last_phase_node db coin "进场期" current_date) "enter_phase_day1"
  else if node_type = "exit_phase_day1" then
    refCandidate (find_crossing_node db coin current_date 0 "up") "break_0" ++
    refCandidate (find_last_phase_node db coin "退场期" current_date) "exit_phase_day1"
  else if node_type = "break_200" then
    refCandidate (find_crossing_node db coin current_date 200 "down") "break_200" ++
    refCandidate (find_last_phase_node db coin "进场期" current_date) "enter_phase_day1"
  else if node_type = "break_0" then
    refCandidate (find_crossing_node db coin current_date 0 "up") "break_0" ++
    refCandidate (find_last_phase_node db coin "退场期" current_date) "exit_phase_day1"
  else []

/-- MagAnalyzer._find_reference_node: build the node-type-specific
candidate set and return the candidate with the most recent date. -/
def find_reference_node (db : DB) (coin : String) (current_date : Nat)
    (node_type : String) : Option RefNode :=
  if node_type = "enter_phase_day1" ∨ node_type = "exit_phase_day1" ∨
     node_type = "break_200" ∨ node_type = "break_0" then
    pickLatest (reference_candidates db coin current_date node_type)
  else none

/-- MagAnalyzer._calculate_change_percentage: base percentage change of
the off-chain index (sign flipped in the exit phase) plus the ±5
phase-transition correction when the move crosses 1000. -/
def calculate_change_percentage (ref_index current_index : ℚ)
    (phase_type : String) : ℚ × ℚ :=
  if ref_index = 0 then (0, 0)
  else
    let raw_change := ((current_index - ref_index) / ref_index) * 100
    let base_change := if phase_type = "进场期" then raw_change else -raw_change
    let phase_correction : ℚ :=
      if (ref_index < 1000 ∧ 1000 ≤ current_index) ∨
         (current_index < 1000 ∧ 1000 ≤ ref_index) then
        let is_upward := ref_index < current_index
        if phase_type = "进场期" then (if is_upward then 5 else -5)
        else (if is_upward then -5 else 5)
      else 0
    (base_change, phase_correction)

/-- MagAnalyzer._calculate_break_index_correction: −2.5 on an
entry-day-1 node with break index above 200 or an exit-day-1 node with
negative break index. -/
def calculate_break_index_correction (node_type : String) (break_index : ℤ) : ℚ :=
  if node_type = "enter_phase_day1" ∧ break_index > 200 then -2.5
  else if node_type = "exit_phase_day1" ∧ break_index < 0 then -2.5
  else 0

/-- MagAnalyzer._get_quality_rating: 优质 is Excellent, 一般 is Average,
劣质 is Poor. -/
def get_quality_rating (final_percentage : ℚ) : String :=
  if final_percentage > 5 then "优质"
  else if final_percentage ≥ -5 then "一般"
  else "劣质"

/-- The dragon_weights dict of
MagAnalyzer._calculate_benchmark_divergence_correction. -/
def dragon_weights : List (String × ℚ) :=
  [("ETH", -2.5), ("BNB", -1.5), ("SOL", -1.0), ("DOGE", -0.5)]

/-- Python dict assignment on a string-keyed dict modelled as an
association list: replace in place if the key exists, append otherwise. -/
def dict_set (k : String) (v : ℚ) : List (String × ℚ) → List (String × ℚ)
  | [] => [(k, v)]
  | (k', v') :: rest => if k' = k then (k, v) :: rest else (k', v') :: dict_set k v rest

/-- The membership-plus-indexing test the source performs on the
dragon_weights dict. -/
def dragon_weights_lookup (k : String) : Option ℚ :=
  if k = "ETH" then some (-2.5)
  else if k = "BNB" then some (-1.5)
  else if k = "SOL" then some (-1.0)
  else if k = "DOGE" then some (-0.5)
  else none

/-- Loop body over the benchmark-leader rows in
MagAnalyzer._calculate_benchmark_divergence_correction. -/
def divergenceLeaderStep (current_phase : String) (acc : ℚ × List (String × ℚ))
    (leader : DailyRecord) : ℚ × List (String × ℚ) :=
  if leader.phase_type ≠ current_phase then
    match dragon_weights_lookup leader.coin with
    | some weight => (acc.1 + weight, dict_set leader.coin weight acc.2)
    | none => acc
  else acc

/-- MagAnalyzer._calculate_benchmark_divergence_correction: sum of the
fixed negative weights of every benchmark (NASDAQ, BTC, leader coins)
whose phase differs from the asset's phase, plus the per-benchmark
breakdown dict.  Only the is_us_stock flag is consulted for skipping. -/
def calculate_benchmark_divergence_correction (db : DB) (coin : String)
    (date : Nat) (coin_data : DailyRecord) : ℚ × List (String × ℚ) :=
  let current_phase := coin_data.phase_type
  let acc0 : ℚ × List (String × ℚ) := (0, [])
  let acc1 :=
    if coin_data.is_us_stock = 0 then
      match get_coin_data db "NASDAQ" date with
      | some us_stock =>
        if us_stock.phase_type ≠ current_phase then
          (acc0.1 + -10, dict_set "NASDAQ" (-10) acc0.2)
        else acc0
      | none => acc0
    else acc0
  let acc2 :=
    if coin ≠ "BTC" ∧ coin_data.is_us_stock = 0 then
      match get_coin_data db "BTC" date with
      | some btc_data =>
        if btc_data.phase_type ≠ current_phase then
          (acc1.1 + -5, dict_set "BTC" (-5) acc1.2)
        else acc1
      | none => acc1
    else acc1
  if coin_data.is_dragon_leader = 0 ∧ coin ≠ "BTC" ∧ coin_data.is_us_stock = 0 then
    (get_dragon_leaders db date).foldl (divergenceLeaderStep current_phase) acc2
  else acc2

/-- Loop body shared by MagAnalyzer._count_break_200_since_enter and
_count_break_0_since_exit: scan records in ascending date order, skip
rows before the phase start, stop past the current date, and count the
crossings detected by the given predicate on (previous, current) break
indices. -/
def countCrossLoop (start_date current_date : Nat) (cross : ℤ → ℤ → Bool) :
    List DailyRecord → Option ℤ → Nat → Nat
  | [], _, count => count
  | record :: rest, prev_break, count =>
    if record.date < start_date then countCrossLoop start_date current_date cross rest prev_break count
    else if record.date > current_date then count
    else
      match record.break_index with
      | none => countCrossLoop start_date current_date cross rest none count
      | some current_break =>
        let count' :=
          match prev_break with
          | some pb => if cross pb current_break then count + 1 else count
          | none => count
        countCrossLoop start_date current_date cross rest (some current_break) count'

/-- MagAnalyzer._count_break_200_since_enter. -/
def count_break_200_since_enter (db : DB) (coin : String) (current_date : Nat) : Nat :=
  match find_last_phase_node db coin "进场期" current_date with
  | none => 1
  | some enter_node =>
    countCrossLoop enter_node.1 current_date
      (fun pb cb => decide (pb ≥ 200 ∧ cb < 200))
      (get_coin_history db coin 100).reverse none 0

/-- MagAnalyzer._count_break_0_since_exit. -/
def count_break_0_since_exit (db : DB) (coin : String) (current_date : Nat) : Nat :=
  match find_last_phase_node db coin "退场期" current_date with
  | none => 1
  | some exit_node =>
    countCrossLoop exit_node.1 current_date
      (fun pb cb => decide (pb < 0 ∧ cb ≥ 0))
      (get_coin_history db coin 100).reverse none 0

/-- MagAnalyzer._identify_section: sub-cycle number, display label and
sub-cycle percentage for the current node. -/
def identify_section (db : DB) (coin : String) (date : Nat) (phase_type : String)
    (reference : RefNode) (current_node_type : String) : Nat × String × ℚ :=
  match get_coin_data db coin date with
  | none => (1, "", 0)
  | some coin_data =>
    let section_change_pct :=
      (calculate_change_percentage (reference.offchain_index : ℚ)
        (coin_data.offchain_index : ℚ) phase_type).1
    if phase_type = "进场期" then
      if current_node_type = "enter_phase_day1" then
        (1, "进场期第1小节质量", section_change_pct)
      else if current_node_type = "break_200" then
        let count := count_break_200_since_enter db coin date
        (count + 1, "进场期第" ++ toString (count + 1) ++ "小节质量", section_change_pct)
      else (1, "进场期第1小节质量", section_change_pct)
    else
      if current_node_type = "exit_phase_day1" then
        (1, "退场期第1小节质量", section_change_pct)
      else if current_node_type = "break_0" then
        let count := count_break_0_since_exit db coin date
        (count + 1, "退场期第" ++ toString (count + 1) ++ "小节质量", section_change_pct)
      else (1, "退场期第1小节质量", section_change_pct)

/-- The analysis-result record assembled by MagAnalyzer.analyze_coin
(the display-only benchmark_chain_status string is omitted). -/
structure AnalysisResult where
  date : Nat
  coin : String
  node_type : String
  reference_node_date : Nat
  reference_node_type : String
  reference_offchain_index : ℤ
  current_offchain_index : ℤ
  change_percentage : ℚ
  phase_correction : ℚ
  divergence_correction : ℚ
  divergence_details : List (String × ℚ)
  break_index_correction : ℚ
  approaching_correction : ℚ
  final_percentage : ℚ
  quality_rating : String
  section_num : Nat
  section_desc : String
  section_pct : ℚ
deriving DecidableEq

/-- MagAnalyzer.analyze_coin: the full key-node analysis of one asset on
one date.  The special-node scan the source performs first only writes
to the special_nodes table, which no step of the analysis reads, so it
is modelled separately as detect_special_nodes. -/
def analyze_coin (db : DB) (coin : String) (date : Nat) : Option AnalysisResult :=
  match get_coin_data db coin date with
  | none => none
  | some coin_data =>
    match detect_key_node db coin coin_data with
    | none => none
    | some node_type =>
      match find_reference_node db coin date node_type with
      | none => none
      | some reference =>
        let sec := identify_section db coin date coin_data.phase_type reference node_type
        let ref_node_type := reference.node_type
        let current_offchain_index : ℤ :=
          if node_type = "break_200" ∨ node_type = "break_0" then
            match get_previous_day_data db coin date with
            | some previous_data =>
              let threshold : ℤ := if node_type = "break_200" then 200 else 0
              interpolate_offchain_index previous_data.offchain_index
                coin_data.offchain_index (previous_data.break_index.getD 0)
                (coin_data.break_index.getD 0) threshold
            | none => coin_data.offchain_index
          else coin_data.offchain_index
        let chg := calculate_change_percentage (reference.offchain_index : ℚ)
          (current_offchain_index : ℚ) coin_data.phase_type
        let div := calculate_benchmark_divergence_correction db coin date coin_data
        let break_index_correction :=
          calculate_break_index_correction node_type (coin_data.break_index.getD 0)
        let approaching_correction : ℚ := if coin_data.is_approaching = 1 then -5 else 0
        let final_pct := chg.1 + chg.2 + div.1 + break_index_correction + approaching_correction
        some
          { date := date
            coin := coin
            node_type := node_type
            reference_node_date := reference.date
            reference_node_type := ref_node_type
            reference_offchain_index := reference.offchain_index
            current_offchain_index := current_offchain_index
            change_percentage := chg.1
            phase_correction := chg.2
            divergence_correction := div.1
            divergence_details := div.2
            break_index_correction := break_index_correction
            approaching_correction := approaching_correction
            final_percentage := final_pct
            quality_rating := get_quality_rating final_pct
            section_num := sec.1
            section_desc := sec.2.1
            section_pct := sec.2.2 }

/-- The UNIQUE(date, coin, node_type) key test on the special_nodes
table. -/
def hasSpecialKey (db : DB) (date : Nat) (coin node_type : String) : Bool :=
  db.specials.any (fun s => decide (s.date = date ∧ s.coin = coin ∧ s.node_type = node_type))

/-- MagDatabase.insert_special_node: INSERT OR IGNORE under the
UNIQUE(date, coin, node_type) constraint — a duplicate key is a no-op. -/
def insert_special_node (db : DB) (date : Nat) (coin node_type description : String)
    (offchain_index break_index : Option ℤ) : DB :=
  if hasSpecialKey db date coin node_type then db
  else { db with specials := db.specials ++
    [⟨date, coin, node_type, description, offchain_index, break_index⟩] }

/-- MagDatabase.has_quality_warning_in_section: is there already a
special node of this type for this coin inside the date span? -/
def has_quality_warning_in_section (db : DB) (coin : String)
    (section_start_date current_date : Nat) (node_type : String) : Bool :=
  db.specials.any (fun s => decide (s.coin = coin ∧ s.node_type = node_type ∧
    section_start_date ≤ s.date ∧ s.date ≤ current_date))

/-- MagAnalyzer._find_current_section_start_date: today if it is a
phase day-1 or a crossing, otherwise the most recent of the phase day-1
and crossing dates. -/
def find_current_section_start_date (db : DB) (coin : String) (current_date : Nat)
    (phase_type : String) : Option Nat :=
  match get_coin_data db coin current_date with
  | none => none
  | some current_data =>
    if current_data.phase_days = some 1 then some current_date
    else
      let crossedToday : Bool :=
        match get_previous_day_data db coin current_date with
        | some previous_data =>
          match previous_data.break_index, current_data.break_index with
          | some prev_break, some current_break =>
            if phase_type = "进场期" ∧ prev_break ≥ 200 ∧ current_break < 200 then true
            else if phase_type = "退场期" ∧ prev_break < 0 ∧ current_break ≥ 0 then true
            else false
          | _, _ => false
        | none => false
      if crossedToday then some current_date
      else
        let candidates : List Nat :=
          if phase_type = "进场期" then
            (find_last_phase_node db coin "进场期" current_date).toList.map Prod.fst ++
            (find_crossing_node db coin current_date 200 "down").toList.map Prod.fst
          else
            (find_last_phase_node db coin "退场期" current_date).toList.map Prod.fst ++
            (find_crossing_node db coin current_date 0 "up").toList.map Prod.fst
        candidates.max?

/-- The rows of the current sub-cycle inspected by the quality-warning
check of MagAnalyzer._detect_special_nodes: the (up to 100 most recent)
rows with date in [section start, today], in date-descending order. -/
def sectionData (db : DB) (coin : String) (section_start_date date : Nat) :
    List DailyRecord :=
  (get_coin_history db coin 100).filter
    (fun r => decide (section_start_date ≤ r.date ∧ r.date ≤ date))

/-- The observed break-index values of a sub-cycle, in the order the
source iterates them (date-descending), None rows dropped. -/
def sectionBreakIndices (rows : List DailyRecord) : List ℤ :=
  (rows.filter (fun d => d.break_index.isSome)).map (fun d => d.break_index.getD 0)

/-- The declining-trend test of the entry quality warning: mean of the
first half of the (date-descending) observed break values strictly
above the mean of the second half, with floor division at the split. -/
def decliningTrend (break_indices : List ℤ) : Bool :=
  let mid := break_indices.length / 2
  let first_half_avg : ℚ := ((break_indices.take mid).sum : ℚ) / (mid : ℚ)
  let second_half_avg : ℚ :=
    ((break_indices.drop mid).sum : ℚ) / ((break_indices.length - mid : ℕ) : ℚ)
  decide (second_half_avg < first_half_avg)

/-- Check cadence of the quality warnings: 14 updates for a
benchmark-equity asset, 7 otherwise. -/
def checkCount (coin_data : DailyRecord) : Nat :=
  if coin_data.is_us_stock ≠ 0 then 14 else 7

/-- Approaching-hint block of MagAnalyzer._detect_special_nodes. -/
def scanApproaching (db : DB) (coin : String) (date : Nat)
    (coin_data : DailyRecord) : DB :=
  if coin_data.is_approaching = 1 then
    insert_special_node db date coin "approaching"
      (coin_data.phase_type ++ "提示逼近 - 场外指数：" ++
        toString coin_data.offchain_index ++ "，爆破指数：" ++
        toString (coin_data.break_index.getD 0))
      (some coin_data.offchain_index) (some (coin_data.break_index.getD 0))
  else db

/-- Threshold-crossing block of MagAnalyzer._detect_special_nodes:
off-chain index crossing 1000 in either direction and break index
crossing 200 upward, against the previous day's record. -/
def scanCrossings (db : DB) (coin : String) (date : Nat)
    (coin_data : DailyRecord) : DB :=
  let offchain_index := coin_data.offchain_index
  let break_index := coin_data.break_index.getD 0
  match get_previous_day_data db coin date with
  | none => db
  | some prev_data =>
    let prev_offchain := prev_data.offchain_index
    let prev_break := prev_data.break_index.getD 0
    let dbA :=
      if prev_offchain < 1000 ∧ 1000 ≤ offchain_index then
        insert_special_node db date coin "offchain_above_1000"
          ("场外指数超1000 - 场外指数：" ++ toString offchain_index ++
            "，爆破指数：" ++ toString break_index)
          (some offchain_index) (some break_index)
      else db
    let dbB :=
      if prev_offchain ≥ 1000 ∧ 1000 > offchain_index then
        insert_special_node dbA date coin "offchain_below_1000"
          ("场外指数跌破1000 - 场外指数：" ++ toString offchain_index ++
            "，爆破指数：" ++ toString break_index)
          (some offchain_index) (some break_index)
      else dbA
    if prev_break < 200 ∧ 200 ≤ break_index then
      insert_special_node dbB date coin "break_above_200"
        ("爆破指数超200 - 场外指数：" ++ toString offchain_index ++
          "，爆破指数：" ++ toString break_index)
        (some offchain_index) (some break_index)
    else dbB

/-- Entry-phase quality-warning block of
MagAnalyzer._detect_special_nodes: fires once per sub-cycle, on its
exactly-Nth update, when the break index never reached 200 in the
sub-cycle and the half-average trend test reports a decline. -/
def scanEntryQuality (db : DB) (coin : String) (date : Nat)
    (coin_data : DailyRecord) : DB :=
  if coin_data.phase_type = "进场期" then
    match find_current_section_start_date db coin date "进场期" with
    | none => db
    | some section_start_date =>
      if has_quality_warning_in_section db coin section_start_date date
          "quality_warning_entry" then db
      else
        let section_data := sectionData db coin section_start_date date
        if section_data.length = checkCount coin_data then
          let has_break_200 :=
            section_data.any (fun d => decide (d.break_index.getD 0 ≥ 200))
          let break_indices := sectionBreakIndices section_data
          if break_indices.length ≥ 2 then
            if ¬ has_break_200 ∧ decliningTrend break_indices then
              insert_special_node db date coin "quality_warning_entry"
                ("进场期第" ++ toString (checkCount coin_data) ++
                  "次更新 - 爆破指数未破200且均值下降 - 质量下降")
                (some coin_data.offchain_index) (some (coin_data.break_index.getD 0))
            else db
          else db
        else db
  else db

/-- Exit-phase quality-warning block of
MagAnalyzer._detect_special_nodes: fires once per sub-cycle, on its
exactly-Nth update, when the break index never fell below 0 in the
sub-cycle. -/
def scanExitQuality (db : DB) (coin : String) (date : Nat)
    (coin_data : DailyRecord) : DB :=
  if coin_data.phase_type = "退场期" then
    match find_current_section_start_date db coin date "退场期" with
    | none => db
    | some section_start_date =>
      if has_quality_warning_in_section db coin section_start_date date
          "quality_warning_exit" then db
      else
        let section_data := sectionData db coin section_start_date date
        if section_data.length = checkCount coin_data then
          let has_break_0 :=
            section_data.any (fun d => decide (d.break_index.getD 0 < 0))
          if ¬ has_break_0 then
            insert_special_node db date coin "quality_warning_exit"
              ("退场期第" ++ toString (checkCount coin_data) ++
                "次更新 - 爆破指数未跌破0 - 质量下降")
              (some coin_data.offchain_index) (some (coin_data.break_index.getD 0))
          else db
        else db
  else db

/-- MagAnalyzer._detect_special_nodes: the per-record scan that records
approaching hints, 1000-crossings of the off-chain index, upward
200-crossings of the break index, and the once-per-sub-cycle quality
warnings.  The store value is threaded through the four sequential
blocks of the source; every block reads daily records through the
threaded store, whose records no insert changes. -/
def detect_special_nodes (db : DB) (coin : String) (date : Nat)
    (coin_data : DailyRecord) : DB :=
  scanExitQuality
    (scanEntryQuality
      (scanCrossings (scanApproaching db coin date coin_data) coin date coin_data)
      coin date coin_data)
    coin date coin_data

/-- Number of special-node rows carrying a given unique key. -/
def specialKeyCount (db : DB) (date : Nat) (coin node_type : String) : Nat :=
  (db.specials.filter
    (fun s => decide (s.date = date ∧ s.coin = coin ∧ s.node_type = node_type))).length

/-- All benchmark names the divergence correction can charge, with their
fixed weights (NASDAQ and BTC plus the four leader coins). -/
def benchmarkWeights : List (String × ℚ) :=
  [("NASDAQ", -10), ("BTC", -5)] ++ dragon_weights

/-- Fixture record builder: an unflagged row of coin_daily_data. -/
def plainRec (date : Nat) (coin phase : String) (days off brk : ℤ) : DailyRecord :=
  ⟨date, coin, phase, some days, off, some brk, 0, 0, 0, 0⟩

/-- Fixture: an entry cycle with two break-200 crossings (days 5 and 8),
the timeline of tests/test_multiple_break200.py. -/
def scenarioDB : DB :=
  ⟨[plainRec 1 "TEST" "进场期" 1 900 150,
    plainRec 2 "TEST" "进场期" 2 950 180,
    plainRec 3 "TEST" "进场期" 3 1000 210,
    plainRec 4 "TEST" "进场期" 4 1050 250,
    plainRec 5 "TEST" "进场期" 5 1020 180,
    plainRec 6 "TEST" "进场期" 6 1040 220,
    plainRec 7 "TEST" "进场期" 7 1060 240,
    plainRec 8 "TEST" "进场期" 8 1090 190], []⟩

/-- Fixture: a re-entry day-1 record carrying the approaching flag and a
hot break index, after one earlier entry day-1. -/
def approachDB : DB :=
  ⟨[plainRec 1 "TEST" "进场期" 1 800 100,
    ⟨2, "TEST", "进场期", some 1, 850, some 300, 0, 0, 0, 1⟩], []⟩

/-- The analysis result analyze_coin produces on approachDB at date 2. -/
def approachResult : AnalysisResult :=
  { date := 2
    coin := "TEST"
    node_type := "enter_phase_day1"
    reference_node_date := 1
    reference_node_type := "enter_phase_day1"
    reference_offchain_index := 800
    current_offchain_index := 850
    change_percentage := 25/4
    phase_correction := 0
    divergence_correction := 0
    divergence_details := []
    break_index_correction := -5/2
    approaching_correction := -5
    final_percentage := -5/4
    quality_rating := "一般"
    section_num := 1
    section_desc := "进场期第1小节质量"
    section_pct := 25/4 }

/-- Fixture: a domestic A-share row (is_cn_stock = 1, is_us_stock = 0)
in the entry phase while the NASDAQ benchmark row is in the exit phase
on the same date. -/
def cnStockDB : DB :=
  ⟨[⟨5, "CNETF", "进场期", some 3, 980, some 100, 0, 0, 1, 0⟩,
    ⟨5, "NASDAQ", "退场期", some 2, 900, some 50, 0, 1, 0, 0⟩], []⟩

/-- The domestic A-share record of cnStockDB. -/
def cnStockRec : DailyRecord := ⟨5, "CNETF", "进场期", some 3, 980, some 100, 0, 0, 1, 0⟩

/-- Fixture: seven entry-phase updates whose break index stays below 200
and whose chronologically rising values make the source's
(date-descending) half-average test report a declining trend. -/
def warnDB : DB :=
  ⟨[plainRec 1 "TEST" "进场期" 1 900 10,
    plainRec 2 "TEST" "进场期" 2 900 20,
    plainRec 3 "TEST" "进场期" 3 900 30,
    plainRec 4 "TEST" "进场期" 4 900 40,
    plainRec 5 "TEST" "进场期" 5 900 100,
    plainRec 6 "TEST" "进场期" 6 900 110,
    plainRec 7 "TEST" "进场期" 7 900 120], []⟩

/-- The day-7 record of warnDB. -/
def warnRec : DailyRecord := plainRec 7 "TEST" "进场期" 7 900 120

/-- Fixture: seven exit-phase updates whose break index never falls
below zero. -/
def exitWarnDB : DB :=
  ⟨[plainRec 1 "TEST" "退场期" 1 900 120,
    plainRec 2 "TEST" "退场期" 2 900 110,
    plainRec 3 "TEST" "退场期" 3 900 100,
    plainRec 4 "TEST" "退场期" 4 900 40,
    plainRec 5 "TEST" "退场期" 5 900 30,
    plainRec 6 "TEST" "退场期" 6 900 20,
    plainRec 7 "TEST" "退场期" 7 900 10], []⟩

/-- The day-7 record of exitWarnDB. -/
def exitWarnRec : DailyRecord := plainRec 7 "TEST" "退场期" 7 900 10

/-- Fixture: a first-ever entry day-1 record with no history, so no
reference candidate exists. -/
def loneDB : DB := ⟨[plainRec 1 "SOLO" "进场期" 1 500 100], []⟩

/-! ## Helper lemmas -/

lemma pythonRound_eq_floor_or (q : ℚ) :
    pythonRound q = ⌊q⌋ ∨ (pythonRound q = ⌊q⌋ + 1 ∧ 1/2 ≤ q - (⌊q⌋ : ℚ)) := by
  unfold pythonRound
  split_ifs with h1 h2 h3
  · exact Or.inl rfl
  · exact Or.inr ⟨rfl, le_of_lt h2⟩
  · exact Or.inl rfl
  · exact Or.inr ⟨rfl, not_lt.mp h1⟩

lemma le_pythonRound {a : ℤ} {q : ℚ} (h : (a : ℚ) ≤ q) : a ≤ pythonRound q := by
  have hf : a ≤ ⌊q⌋ := Int.le_floor.mpr h
  rcases pythonRound_eq_floor_or q with hc | ⟨hc, _⟩ <;> omega

lemma pythonRound_le {b : ℤ} {q : ℚ} (h : q ≤ (b : ℚ)) : pythonRound q ≤ b := by
  have hfb : ⌊q⌋ ≤ b := by
    calc ⌊q⌋ ≤ ⌊(b : ℚ)⌋ := Int.floor_le_floor h
    _ = b := Int.floor_intCast b
  rcases pythonRound_eq_floor_or q with hc | ⟨hc, hfrac⟩
  · omega
  · rw [hc]
    rcases lt_or_eq_of_le hfb with h' | h'
    · omega
    · exfalso
      have hq : q - (⌊q⌋ : ℚ) ≤ 0 := by
        have hbq : ((⌊q⌋ : ℤ) : ℚ) = (b : ℚ) := by rw [h']
        linarith [hbq ▸ h]
      linarith

lemma interpolate_ratio_bounds {break1 break2 target : ℤ}
    (hne : break1 ≠ break2) (hlo : min break1 break2 ≤ target)
    (hhi : target ≤ max break1 break2) :
    0 ≤ ((target : ℚ) - (break1 : ℚ)) / ((break2 : ℚ) - (break1 : ℚ)) ∧
    ((target : ℚ) - (break1 : ℚ)) / ((break2 : ℚ) - (break1 : ℚ)) ≤ 1 := by
  rcases lt_or_gt_of_ne hne with h | h
  · have hl : break1 ≤ target := by omega
    have hh : target ≤ break2 := by omega
    have hd : (0 : ℚ) < (break2 : ℚ) - break1 := by
      have : (break1 : ℚ) < break2 := by exact_mod_cast h
      linarith
    constructor
    · apply div_nonneg _ (le_of_lt hd)
      have : (break1 : ℚ) ≤ target := by exact_mod_cast hl
      linarith
    · rw [div_le_one hd]
      have : (target : ℚ) ≤ break2 := by exact_mod_cast hh
      linarith
  · have hl : break2 ≤ target := by omega
    have hh : target ≤ break1 := by omega
    have hd : (break2 : ℚ) - break1 < 0 := by
      have : (break2 : ℚ) < break1 := by exact_mod_cast h
      linarith
    constructor
    · rw [div_nonneg_iff]
      right
      constructor
      · have : (target : ℚ) ≤ break1 := by exact_mod_cast hh
        linarith
      · linarith
    · rw [div_le_one_iff]
      right; right
      refine ⟨hd, ?_⟩
      have : (break2 : ℚ) ≤ target := by exact_mod_cast hl
      linarith

lemma interpolate_between (off1 off2 break1 break2 target : ℤ)
    (hne : break1 ≠ break2) (hlo : min break1 break2 ≤ target)
    (hhi : target ≤ max break1 break2) :
    min off1 off2 ≤ interpolate_offchain_index off1 off2 break1 break2 target ∧
    interpolate_offchain_index off1 off2 break1 break2 target ≤ max off1 off2 := by
  obtain ⟨hr0, hr1⟩ := interpolate_ratio_bounds hne hlo hhi
  unfold interpolate_offchain_index
  rw [if_neg hne]
  set ratio : ℚ := ((target : ℚ) - (break1 : ℚ)) / ((break2 : ℚ) - (break1 : ℚ)) with hr
  set v : ℚ := (off1 : ℚ) + ((off2 : ℚ) - (off1 : ℚ)) * ratio with hv
  have hlowv : ((min off1 off2 : ℤ) : ℚ) ≤ v := by
    push_cast
    rcases le_total off1 off2 with h | h
    · have hc : (off1 : ℚ) ≤ off2 := by exact_mod_cast h
      have := min_eq_left hc
      rw [this]
      nlinarith
    · have hc : (off2 : ℚ) ≤ off1 := by exact_mod_cast h
      have := min_eq_right hc
      rw [this]
      nlinarith
  have hhiv : v ≤ ((max off1 off2 : ℤ) : ℚ) := by
    push_cast
    rcases le_total off1 off2 with h | h
    · have hc : (off1 : ℚ) ≤ off2 := by exact_mod_cast h
      have := max_eq_right hc
      rw [this]
      nlinarith
    · have hc : (off2 : ℚ) ≤ off1 := by exact_mod_cast h
      have := max_eq_left hc
      rw [this]
      nlinarith
  exact ⟨le_pythonRound hlowv, pythonRound_le hhiv⟩

lemma pickLatest_go (c : RefNode) (cs : List RefNode) :
    (cs.foldl (fun best x => if best.date < x.date then x else best) c) ∈ c :: cs ∧
    ∀ y ∈ c :: cs,
      y.date ≤ (cs.foldl (fun best x => if best.date < x.date then x else best) c).date := by
  induction cs generalizing c with
  | nil =>
    refine ⟨List.mem_cons_self c [], ?_⟩
    intro y hy
    rcases List.mem_cons.mp hy with h | h
    · rw [h, List.foldl_nil]
    · cases h
  | cons x xs ih =>
    obtain ⟨ihmem, ihle⟩ := ih (if c.date < x.date then x else c)
    rw [List.foldl_cons]
    constructor
    · rcases List.mem_cons.mp ihmem with h | h
      · rw [h]
        split_ifs
        · exact List.mem_cons_of_mem _ (List.mem_cons_self x xs)
        · exact List.mem_cons_self _ _
      · exact List.mem_cons_of_mem _ (List.mem_cons_of_mem _ h)
    · intro y hy
      have hhead := ihle _ (List.mem_cons_self _ xs)
      rcases List.mem_cons.mp hy with h | h
      · rw [h]
        refine le_trans ?_ hhead
        split_ifs with hcx
        · exact le_of_lt hcx
        · exact le_refl _
      · rcases List.mem_cons.mp h with h' | h'
        · rw [h']
          refine le_trans ?_ hhead
          split_ifs with hcx
          · exact le_refl _
          · exact not_lt.mp hcx
        · exact ihle _ (List.mem_cons_of_mem _ h')

lemma pickLatest_spec (l : List RefNode) :
    (pickLatest l = none ↔ l = []) ∧
    (∀ res, pickLatest l = some res → res ∈ l ∧ ∀ c ∈ l, c.date ≤ res.date) := by
  cases l with
  | nil => exact ⟨by simp [pickLatest], fun res h => by simp [pickLatest] at h⟩
  | cons c cs =>
    refine ⟨by simp [pickLatest], fun res h => ?_⟩
    have hres : res = cs.foldl (fun best x => if best.date < x.date then x else best) c :=
      (Option.some.inj h).symm
    rw [hres]
    exact pickLatest_go c cs

lemma insert_special_node_records (db : DB) (date : Nat) (coin t desc : String)
    (o b : Option ℤ) :
    (insert_special_node db date coin t desc o b).records = db.records := by
  unfold insert_special_node
  split_ifs <;> rfl

lemma hasSpecialKey_insert_self (db : DB) (date : Nat) (coin t desc : String)
    (o b : Option ℤ) :
    hasSpecialKey (insert_special_node db date coin t desc o b) date coin t = true := by
  unfold insert_special_node
  split_ifs with h
  · exact h
  · simp [hasSpecialKey, List.any_append]

lemma hasSpecialKey_iff_count_pos (db : DB) (d : Nat) (c t : String) :
    hasSpecialKey db d c t = true ↔ 0 < specialKeyCount db d c t := by
  unfold hasSpecialKey specialKeyCount
  rw [List.any_eq_true, List.length_pos]
  constructor
  · rintro ⟨x, hx, hp⟩ hnil
    rw [List.filter_eq_nil_iff] at hnil
    exact absurd hp (by simpa using hnil x hx)
  · intro h
    obtain ⟨y, hy⟩ := List.exists_mem_of_ne_nil _ h
    have hm := List.mem_filter.mp hy
    exact ⟨y, hm.1, hm.2⟩

lemma dict_set_fresh (k : String) (v : ℚ) (xs : List (String × ℚ))
    (h : ∀ e ∈ xs, e.1 ≠ k) : dict_set k v xs = xs ++ [(k, v)] := by
  induction xs with
  | nil => rfl
  | cons e rest ih =>
    unfold dict_set
    rw [if_neg (h e (List.mem_cons_self e rest))]
    rw [ih (fun x hx => h x (List.mem_cons_of_mem e hx))]
    rfl

lemma dragon_lookup_mem {k : String} {w : ℚ}
    (h : dragon_weights_lookup k = some w) : (k, w) ∈ dragon_weights := by
  unfold dragon_weights_lookup at h
  split_ifs at h with h1 h2 h3 h4 <;>
    simp_all [dragon_weights]

lemma sum_nonpos_of (l : List ℚ) (h : ∀ x ∈ l, x ≤ 0) : l.sum ≤ 0 := by
  induction l with
  | nil => simp
  | cons x xs ih =>
    rw [List.sum_cons]
    have h1 := h x (List.mem_cons_self x xs)
    have h2 := ih (fun y hy => h y (List.mem_cons_of_mem x hy))
    linarith

lemma sumW_ge (details : List (String × ℚ)) :
    ∀ (master : List (String × ℚ)),
      (details.map Prod.fst).Nodup →
      (∀ e ∈ details, e ∈ master) →
      (∀ e ∈ master, e.2 ≤ 0) →
      (master.map Prod.snd).sum ≤ (details.map Prod.snd).sum := by
  induction details with
  | nil =>
    intro master _ _ hle
    simp only [List.map_nil, List.sum_nil]
    refine sum_nonpos_of _ ?_
    intro x hx
    obtain ⟨e, he, hex⟩ := List.mem_map.mp hx
    exact hex ▸ hle e he
  | cons e rest ih =>
    intro master hnodup hmem hle
    have hemem : e ∈ master := hmem e (List.mem_cons_self e rest)
    obtain ⟨s, t, hst⟩ := List.append_of_mem hemem
    have hperm : master.Perm (e :: (s ++ t)) := by
      rw [hst]
      exact List.perm_middle
    have hsum : (master.map Prod.snd).sum = e.2 + (((s ++ t)).map Prod.snd).sum := by
      rw [(hperm.map Prod.snd).sum_eq]
      simp
    have hrest : ∀ x ∈ rest, x ∈ s ++ t := by
      intro x hx
      have hxm := hmem x (List.mem_cons_of_mem e hx)
      have hne : x ≠ e := by
        intro heq
        subst heq
        have hmemmap : x.1 ∈ rest.map Prod.fst := List.mem_map_of_mem Prod.fst hx
        simp only [List.map_cons, List.nodup_cons] at hnodup
        exact hnodup.1 hmemmap
      have := hperm.mem_iff.mp hxm
      rcases List.mem_cons.mp this with h | h
      · exact absurd h hne
      · exact h
    have htail : (rest.map Prod.fst).Nodup := by
      simp only [List.map_cons, List.nodup_cons] at hnodup
      exact hnodup.2
    have hmaster : ∀ x ∈ s ++ t, x.2 ≤ 0 := by
      intro x hx
      exact hle x (hperm.mem_iff.mpr (List.mem_cons_of_mem e hx))
    have hh := ih (s ++ t) htail hrest hmaster
    rw [hsum]
    simp only [List.map_cons, List.sum_cons]
    linarith

lemma leaders_fold_inv (phase : String) :
    ∀ (ls : List DailyRecord) (acc : ℚ × List (String × ℚ)),
      (ls.map DailyRecord.coin).Nodup →
      (∀ l ∈ ls, (dragon_weights_lookup l.coin).isSome →
        ∀ e ∈ acc.2, e.1 ≠ l.coin) →
      acc.1 = (acc.2.map Prod.snd).sum →
      (acc.2.map Prod.fst).Nodup →
      (∀ e ∈ acc.2, e ∈ benchmarkWeights) →
      ((ls.foldl (divergenceLeaderStep phase) acc).1 =
        (((ls.foldl (divergenceLeaderStep phase) acc).2).map Prod.snd).sum ∧
       (((ls.foldl (divergenceLeaderStep phase) acc).2).map Prod.fst).Nodup ∧
       (∀ e ∈ (ls.foldl (divergenceLeaderStep phase) acc).2, e ∈ benchmarkWeights)) := by
  intro ls
  induction ls with
  | nil =>
    intro acc _ _ hsum hkeys hmem
    exact ⟨hsum, hkeys, hmem⟩
  | cons l rest ih =>
    intro acc hnodup hfresh hsum hkeys hmem
    rw [List.foldl_cons]
    have hnodup' : (rest.map DailyRecord.coin).Nodup := by
      simp only [List.map_cons, List.nodup_cons] at hnodup
      exact hnodup.2
    have hlnotin : l.coin ∉ rest.map DailyRecord.coin := by
      simp only [List.map_cons, List.nodup_cons] at hnodup
      exact hnodup.1
    by_cases hph : l.phase_type ≠ phase
    · rcases hlk : dragon_weights_lookup l.coin with _ | w
      · have hstep : divergenceLeaderStep phase acc l = acc := by
          simp only [divergenceLeaderStep, if_pos hph, hlk]
        rw [hstep]
        exact ih acc hnodup'
          (fun l' hl' hs e he => hfresh l' (List.mem_cons_of_mem l hl') hs e he)
          hsum hkeys hmem
      · have hfr : ∀ e ∈ acc.2, e.1 ≠ l.coin :=
          hfresh l (List.mem_cons_self l rest) (by rw [hlk]; rfl)
        have hstep : divergenceLeaderStep phase acc l =
            (acc.1 + w, acc.2 ++ [(l.coin, w)]) := by
          simp only [divergenceLeaderStep, if_pos hph, hlk]
          rw [dict_set_fresh l.coin w acc.2 hfr]
        rw [hstep]
        refine ih (acc.1 + w, acc.2 ++ [(l.coin, w)]) hnodup' ?_ ?_ ?_ ?_
        · intro l' hl' hs e he
          rcases List.mem_append.mp he with h | h
          · exact hfresh l' (List.mem_cons_of_mem l hl') hs e h
          · have he' : e = (l.coin, w) := by simpa using h
            rw [he']
            intro hcontra
            rw [show l.coin = l'.coin from hcontra] at hlnotin
            exact hlnotin (List.mem_map_of_mem DailyRecord.coin hl')
        · simp only [List.map_append, List.sum_append, List.map_cons, List.map_nil,
            List.sum_cons, List.sum_nil]
          rw [hsum]
          ring
        · simp only [List.map_append, List.map_cons, List.map_nil]
          rw [List.nodup_append]
          refine ⟨hkeys, List.nodup_singleton _, ?_⟩
          intro a ha hb
          have hab : a = l.coin := by simpa using hb
          obtain ⟨e, he, hea⟩ := List.mem_map.mp ha
          exact absurd (hab ▸ hea) (hfr e he)
        · intro e he
          rcases List.mem_append.mp he with h | h
          · exact hmem e h
          · have : e = (l.coin, w) := by simpa using h
            rw [this]
            simp only [benchmarkWeights, List.mem_append]
            exact Or.inr (dragon_lookup_mem hlk)
    · push_neg at hph
      have hstep : divergenceLeaderStep phase acc l = acc := by
        simp only [divergenceLeaderStep, if_neg (not_not_intro hph)]
      rw [hstep]
      exact ih acc hnodup'
        (fun l' hl' hs e he => hfresh l' (List.mem_cons_of_mem l hl') hs e he)
        hsum hkeys hmem

lemma hasSpecialKey_insert_iff (db : DB) (d : Nat) (c t desc : String)
    (o b : Option ℤ) (d0 : Nat) (c0 t0 : String) :
    hasSpecialKey (insert_special_node db d c t desc o b) d0 c0 t0 = true ↔
      hasSpecialKey db d0 c0 t0 = true ∨ (d = d0 ∧ c = c0 ∧ t = t0) := by
  unfold insert_special_node
  split_ifs with h
  · constructor
    · exact Or.inl
    · rintro (hx | ⟨rfl, rfl, rfl⟩)
      · exact hx
      · exact h
  · simp only [hasSpecialKey, List.any_append, List.any_cons, List.any_nil,
      Bool.or_eq_true, Bool.or_false, decide_eq_true_eq]

lemma hasSpecialKey_insert_ne {t t0 : String} (hne : t ≠ t0) (db : DB) (d : Nat)
    (c desc : String) (o b : Option ℤ) (d0 : Nat) (c0 : String) :
    hasSpecialKey (insert_special_node db d c t desc o b) d0 c0 t0 =
      hasSpecialKey db d0 c0 t0 := by
  rcases hb : hasSpecialKey db d0 c0 t0 with _ | _
  · rcases hb2 : hasSpecialKey (insert_special_node db d c t desc o b) d0 c0 t0 with _ | _
    · rfl
    · rcases (hasSpecialKey_insert_iff db d c t desc o b d0 c0 t0).mp hb2 with h | ⟨-, -, h3⟩
      · rw [hb] at h
        exact h.symm
      · exact absurd h3 hne
  · exact (hasSpecialKey_insert_iff db d c t desc o b d0 c0 t0).mpr (Or.inl hb)

lemma hqw_insert_ne {t t0 : String} (hne : t ≠ t0) (db : DB) (d : Nat)
    (c desc : String) (o b : Option ℤ) (coin : String) (s e : Nat) :
    has_quality_warning_in_section (insert_special_node db d c t desc o b) coin s e t0 =
      has_quality_warning_in_section db coin s e t0 := by
  unfold insert_special_node
  split_ifs with h
  · rfl
  · simp only [has_quality_warning_in_section, List.any_append, List.any_cons,
      List.any_nil, decide_eq_true_eq, hne]
    simp [hne]

lemma scanApproaching_records (db : DB) (coin : String) (d : Nat) (cd : DailyRecord) :
    (scanApproaching db coin d cd).records = db.records := by
  unfold scanApproaching
  split_ifs
  · exact insert_special_node_records _ _ _ _ _ _ _
  · rfl

lemma scanCrossings_records (db : DB) (coin : String) (d : Nat) (cd : DailyRecord) :
    (scanCrossings db coin d cd).records = db.records := by
  unfold scanCrossings
  rcases hp : get_previous_day_data db coin d with _ | prev
  · rfl
  · simp only [hp]
    split_ifs <;>
      simp only [insert_special_node_records]

lemma get_coin_data_congr {db db' : DB} (h : db.records = db'.records)
    (coin : String) (d : Nat) : get_coin_data db coin d = get_coin_data db' coin d := by
  unfold get_coin_data
  rw [h]

lemma get_previous_day_data_congr {db db' : DB} (h : db.records = db'.records)
    (coin : String) (d : Nat) :
    get_previous_day_data db coin d = get_previous_day_data db' coin d := by
  unfold get_previous_day_data
  rw [h]

lemma get_coin_history_congr {db db' : DB} (h : db.records = db'.records)
    (coin : String) (limit : Nat) :
    get_coin_history db coin limit = get_coin_history db' coin limit := by
  unfold get_coin_history
  rw [h]

lemma find_last_phase_node_congr {db db' : DB} (h : db.records = db'.records)
    (coin p : String) (d : Nat) :
    find_last_phase_node db coin p d = find_last_phase_node db' coin p d := by
  unfold find_last_phase_node
  rw [get_coin_history_congr h]

lemma find_crossing_node_congr {db db' : DB} (h : db.records = db'.records)
    (coin : String) (d : Nat) (th : ℤ) (dir : String) :
    find_crossing_node db coin d th dir = find_crossing_node db' coin d th dir := by
  unfold find_crossing_node
  rw [h]

lemma find_section_start_congr {db db' : DB} (h : db.records = db'.records)
    (coin : String) (d : Nat) (p : String) :
    find_current_section_start_date db coin d p =
      find_current_section_start_date db' coin d p := by
  unfold find_current_section_start_date
  rw [get_coin_data_congr h, get_previous_day_data_congr h,
    find_last_phase_node_congr h, find_last_phase_node_congr h,
    find_crossing_node_congr h, find_crossing_node_congr h]

lemma sectionData_congr {db db' : DB} (h : db.records = db'.records)
    (coin : String) (s d : Nat) :
    sectionData db coin s d = sectionData db' coin s d := by
  unfold sectionData
  rw [get_coin_history_congr h]

lemma hasSpecialKey_scanApproaching {t0 : String} (h : t0 ≠ "approaching")
    (db : DB) (coin : String) (d : Nat) (cd : DailyRecord) (d0 : Nat) (c0 : String) :
    hasSpecialKey (scanApproaching db coin d cd) d0 c0 t0 = hasSpecialKey db d0 c0 t0 := by
  unfold scanApproaching
  split_ifs
  · exact hasSpecialKey_insert_ne (fun he => h he.symm) _ _ _ _ _ _ _ _
  · rfl

lemma hasSpecialKey_scanCrossings {t0 : String}
    (h1 : t0 ≠ "offchain_above_1000") (h2 : t0 ≠ "offchain_below_1000")
    (h3 : t0 ≠ "break_above_200")
    (db : DB) (coin : String) (d : Nat) (cd : DailyRecord) (d0 : Nat) (c0 : String) :
    hasSpecialKey (scanCrossings db coin d cd) d0 c0 t0 = hasSpecialKey db d0 c0 t0 := by
  unfold scanCrossings
  rcases hp : get_previous_day_data db coin d with _ | prev
  · rfl
  · simp only [hp]
    split_ifs <;>
      simp only [hasSpecialKey_insert_ne (fun he => h1 he.symm),
        hasSpecialKey_insert_ne (fun he => h2 he.symm),
        hasSpecialKey_insert_ne (fun he => h3 he.symm)]

lemma hasSpecialKey_scanExitQuality {t0 : String} (h : t0 ≠ "quality_warning_exit")
    (db : DB) (coin : String) (d : Nat) (cd : DailyRecord) (d0 : Nat) (c0 : String) :
    hasSpecialKey (scanExitQuality db coin d cd) d0 c0 t0 = hasSpecialKey db d0 c0 t0 := by
  unfold scanExitQuality
  split_ifs with hp
  · rcases hs : find_current_section_start_date db coin d "退场期" with _ | s
    · rfl
    · simp only [hs]
      split_ifs <;>
        first
          | rfl
          | exact hasSpecialKey_insert_ne (fun he => h he.symm) _ _ _ _ _ _ _ _
  · rfl

lemma hasSpecialKey_scanEntryQuality {t0 : String} (h : t0 ≠ "quality_warning_entry")
    (db : DB) (coin : String) (d : Nat) (cd : DailyRecord) (d0 : Nat) (c0 : String) :
    hasSpecialKey (scanEntryQuality db coin d cd) d0 c0 t0 = hasSpecialKey db d0 c0 t0 := by
  unfold scanEntryQuality
  split_ifs with hp
  · rcases hs : find_current_section_start_date db coin d "进场期" with _ | s
    · rfl
    · simp only [hs]
      split_ifs <;>
        first
          | rfl
          | exact hasSpecialKey_insert_ne (fun he => h he.symm) _ _ _ _ _ _ _ _
  · rfl

lemma hqw_scanApproaching {t0 : String} (h : t0 ≠ "approaching")
    (db : DB) (coin : String) (d : Nat) (cd : DailyRecord) (c0 : String) (s e : Nat) :
    has_quality_warning_in_section (scanApproaching db coin d cd) c0 s e t0 =
      has_quality_warning_in_section db c0 s e t0 := by
  unfold scanApproaching
  split_ifs
  · exact hqw_insert_ne (fun he => h he.symm) _ _ _ _ _ _ _ _ _
  · rfl

lemma hqw_scanCrossings {t0 : String}
    (h1 : t0 ≠ "offchain_above_1000") (h2 : t0 ≠ "offchain_below_1000")
    (h3 : t0 ≠ "break_above_200")
    (db : DB) (coin : String) (d : Nat) (cd : DailyRecord) (c0 : String) (s e : Nat) :
    has_quality_warning_in_section (scanCrossings db coin d cd) c0 s e t0 =
      has_quality_warning_in_section db c0 s e t0 := by
  unfold scanCrossings
  rcases hp : get_previous_day_data db coin d with _ | prev
  · rfl
  · simp only [hp]
    split_ifs <;>
      simp only [hqw_insert_ne (fun he => h1 he.symm),
        hqw_insert_ne (fun he => h2 he.symm),
        hqw_insert_ne (fun he => h3 he.symm)]

lemma scanEntryQuality_records (db : DB) (coin : String) (d : Nat) (cd : DailyRecord) :
    (scanEntryQuality db coin d cd).records = db.records := by
  unfold scanEntryQuality
  split_ifs with hp
  · rcases hs : find_current_section_start_date db coin d "进场期" with _ | s
    · rfl
    · simp only [hs]
      split_ifs <;> first | rfl | exact insert_special_node_records _ _ _ _ _ _ _
  · rfl

lemma hqw_scanEntryQuality {t0 : String} (h : t0 ≠ "quality_warning_entry")
    (db : DB) (coin : String) (d : Nat) (cd : DailyRecord) (c0 : String) (s e : Nat) :
    has_quality_warning_in_section (scanEntryQuality db coin d cd) c0 s e t0 =
      has_quality_warning_in_section db c0 s e t0 := by
  unfold scanEntryQuality
  split_ifs with hp
  · rcases hs : find_current_section_start_date db coin d "进场期" with _ | s'
    · rfl
    · simp only [hs]
      split_ifs <;>
        first
          | rfl
          | exact hqw_insert_ne (fun he => h he.symm) _ _ _ _ _ _ _ _ _
  · rfl

lemma dragon_lookup_isSome_coin {k : String}
    (h : (dragon_weights_lookup k).isSome) :
    k = "ETH" ∨ k = "BNB" ∨ k = "SOL" ∨ k = "DOGE" := by
  unfold dragon_weights_lookup at h
  split_ifs at h with h1 h2 h3 h4 <;> simp_all

lemma benchmark_weight_nonpos {e : String × ℚ} (h : e ∈ benchmarkWeights) : e.2 ≤ 0 := by
  simp only [benchmarkWeights, dragon_weights, List.mem_append, List.mem_cons,
    List.not_mem_nil, or_false] at h
  rcases h with (h | h) | (h | h | h | h) <;> rw [h] <;> norm_num

lemma divergence_prefix_good (db : DB) (coin : String) (d : Nat) (cd : DailyRecord) :
    ∃ pre : ℚ × List (String × ℚ),
      calculate_benchmark_divergence_correction db coin d cd =
        (if cd.is_dragon_leader = 0 ∧ coin ≠ "BTC" ∧ cd.is_us_stock = 0 then
          (get_dragon_leaders db d).foldl (divergenceLeaderStep cd.phase_type) pre
        else pre) ∧
      pre.1 = (pre.2.map Prod.snd).sum ∧
      (pre.2.map Prod.fst).Nodup ∧
      (∀ e ∈ pre.2, e ∈ benchmarkWeights) ∧
      (∀ e ∈ pre.2, e.1 = "NASDAQ" ∨ e.1 = "BTC") := by
  have hshape : ∃ pre : ℚ × List (String × ℚ),
      calculate_benchmark_divergence_correction db coin d cd =
        (if cd.is_dragon_leader = 0 ∧ coin ≠ "BTC" ∧ cd.is_us_stock = 0 then
          (get_dragon_leaders db d).foldl (divergenceLeaderStep cd.phase_type) pre
        else pre) ∧
      (pre = (0, []) ∨ pre = (0 + -10, [("NASDAQ", -10)]) ∨
       pre = (0 + -5, [("BTC", -5)]) ∨
       pre = (0 + -10 + -5, [("NASDAQ", -10), ("BTC", -5)])) := by
    by_cases h1 : cd.is_us_stock = 0
    · rcases hn : get_coin_data db "NASDAQ" d with _ | us
      · by_cases h2 : coin ≠ "BTC" ∧ cd.is_us_stock = 0
        · rcases hb : get_coin_data db "BTC" d with _ | btc
          · exact ⟨(0, []), by
              simp only [calculate_benchmark_divergence_correction, if_pos h1, hn,
                if_pos h2, hb], Or.inl rfl⟩
          · by_cases h3 : btc.phase_type ≠ cd.phase_type
            · exact ⟨(0 + -5, [("BTC", -5)]), by
                simp only [calculate_benchmark_divergence_correction, if_pos h1, hn,
                  if_pos h2, hb, if_pos h3, dict_set], Or.inr (Or.inr (Or.inl rfl))⟩
            · exact ⟨(0, []), by
                simp only [calculate_benchmark_divergence_correction, if_pos h1, hn,
                  if_pos h2, hb, if_neg h3], Or.inl rfl⟩
        · exact ⟨(0, []), by
            simp only [calculate_benchmark_divergence_correction, if_pos h1, hn,
              if_neg h2], Or.inl rfl⟩
      · by_cases h4 : us.phase_type ≠ cd.phase_type
        · by_cases h2 : coin ≠ "BTC" ∧ cd.is_us_stock = 0
          · rcases hb : get_coin_data db "BTC" d with _ | btc
            · exact ⟨(0 + -10, [("NASDAQ", -10)]), by
                simp only [calculate_benchmark_divergence_correction, if_pos h1, hn,
                  if_pos h4, dict_set, if_pos h2, hb], Or.inr (Or.inl rfl)⟩
            · by_cases h3 : btc.phase_type ≠ cd.phase_type
              · exact ⟨(0 + -10 + -5, [("NASDAQ", -10), ("BTC", -5)]), by
                  simp only [calculate_benchmark_divergence_correction, if_pos h1, hn,
                    if_pos h4, dict_set, if_pos h2, hb, if_pos h3]
                  rw [if_neg (show ¬ ("NASDAQ" : String) = "BTC" from by decide)],
                  Or.inr (Or.inr (Or.inr rfl))⟩
              · exact ⟨(0 + -10, [("NASDAQ", -10)]), by
                  simp only [calculate_benchmark_divergence_correction, if_pos h1, hn,
                    if_pos h4, dict_set, if_pos h2, hb, if_neg h3], Or.inr (Or.inl rfl)⟩
          · exact ⟨(0 + -10, [("NASDAQ", -10)]), by
              simp only [calculate_benchmark_divergence_correction, if_pos h1, hn,
                if_pos h4, dict_set, if_neg h2], Or.inr (Or.inl rfl)⟩
        · by_cases h2 : coin ≠ "BTC" ∧ cd.is_us_stock = 0
          · rcases hb : get_coin_data db "BTC" d with _ | btc
            · exact ⟨(0, []), by
                simp only [calculate_benchmark_divergence_correction, if_pos h1, hn,
                  if_neg h4, if_pos h2, hb], Or.inl rfl⟩
            · by_cases h3 : btc.phase_type ≠ cd.phase_type
              · exact ⟨(0 + -5, [("BTC", -5)]), by
                  simp only [calculate_benchmark_divergence_correction, if_pos h1, hn,
                    if_neg h4, if_pos h2, hb, if_pos h3, dict_set],
                  Or.inr (Or.inr (Or.inl rfl))⟩
              · exact ⟨(0, []), by
                  simp only [calculate_benchmark_divergence_correction, if_pos h1, hn,
                    if_neg h4, if_pos h2, hb, if_neg h3], Or.inl rfl⟩
          · exact ⟨(0, []), by
              simp only [calculate_benchmark_divergence_correction, if_pos h1, hn,
                if_neg h4, if_neg h2], Or.inl rfl⟩
    · have h2 : ¬ (coin ≠ "BTC" ∧ cd.is_us_stock = 0) := fun h => h1 h.2
      exact ⟨(0, []), by
        simp only [calculate_benchmark_divergence_correction, if_neg h1, if_neg h2],
        Or.inl rfl⟩
  obtain ⟨pre, hcalc, hshape'⟩ := hshape
  refine ⟨pre, hcalc, ?_, ?_, ?_, ?_⟩ <;>
    rcases hshape' with h | h | h | h <;> subst h <;> with_unfolding_all decide

lemma scanEntryQuality_emits (db2 : DB) (coin : String) (d : Nat) (cd : DailyRecord)
    (hk2 : hasSpecialKey db2 d coin "quality_warning_entry" = false)
    (h2 : hasSpecialKey (scanEntryQuality db2 coin d cd) d coin
      "quality_warning_entry" = true) :
    cd.phase_type = "进场期" ∧
    ∃ start, find_current_section_start_date db2 coin d "进场期" = some start ∧
      has_quality_warning_in_section db2 coin start d "quality_warning_entry" = false ∧
      (sectionData db2 coin start d).length = checkCount cd ∧
      (∀ r ∈ sectionData db2 coin start d, r.break_index.getD 0 < 200) ∧
      2 ≤ (sectionBreakIndices (sectionData db2 coin start d)).length ∧
      decliningTrend (sectionBreakIndices (sectionData db2 coin start d)) = true := by
  by_cases hph : cd.phase_type = "进场期"
  case neg =>
    have hscan : scanEntryQuality db2 coin d cd = db2 := by
      unfold scanEntryQuality
      rw [if_neg hph]
    rw [hscan] at h2
    rw [h2] at hk2
    exact Bool.noConfusion hk2
  case pos =>
  refine ⟨hph, ?_⟩
  rcases hss : find_current_section_start_date db2 coin d "进场期" with _ | start
  · have hscan : scanEntryQuality db2 coin d cd = db2 := by
      unfold scanEntryQuality
      rw [if_pos hph]
      simp only [hss]
    rw [hscan] at h2
    rw [h2] at hk2
    exact Bool.noConfusion hk2
  · rcases hg : has_quality_warning_in_section db2 coin start d
        "quality_warning_entry" with _ | _
    case true =>
      have hscan : scanEntryQuality db2 coin d cd = db2 := by
        unfold scanEntryQuality
        rw [if_pos hph]
        simp only [hss]
        rw [if_pos hg]
      rw [hscan] at h2
      rw [h2] at hk2
      exact Bool.noConfusion hk2
    case false =>
    by_cases hlen : (sectionData db2 coin start d).length = checkCount cd
    case neg =>
      have hscan : scanEntryQuality db2 coin d cd = db2 := by
        unfold scanEntryQuality
        rw [if_pos hph]
        simp only [hss]
        rw [if_neg (by simp [hg]), if_neg hlen]
      rw [hscan] at h2
      rw [h2] at hk2
      exact Bool.noConfusion hk2
    case pos =>
    by_cases hbl : (sectionBreakIndices (sectionData db2 coin start d)).length ≥ 2
    case neg =>
      have hscan : scanEntryQuality db2 coin d cd = db2 := by
        unfold scanEntryQuality
        rw [if_pos hph]
        simp only [hss]
        rw [if_neg (by simp [hg]), if_pos hlen, if_neg hbl]
      rw [hscan] at h2
      rw [h2] at hk2
      exact Bool.noConfusion hk2
    case pos =>
    by_cases hfin :
        ¬ ((sectionData db2 coin start d).any
            (fun x => decide (x.break_index.getD 0 ≥ 200)) = true) ∧
        decliningTrend (sectionBreakIndices (sectionData db2 coin start d)) = true
    case neg =>
      have hscan : scanEntryQuality db2 coin d cd = db2 := by
        unfold scanEntryQuality
        rw [if_pos hph]
        simp only [hss]
        rw [if_neg (by simp [hg]), if_pos hlen, if_pos hbl, if_neg hfin]
      rw [hscan] at h2
      rw [h2] at hk2
      exact Bool.noConfusion hk2
    case pos =>
      refine ⟨start, rfl, hg, hlen, ?_, hbl, hfin.2⟩
      intro r hr
      by_contra hge
      have hge' : r.break_index.getD 0 ≥ 200 := not_lt.mp hge
      exact hfin.1 (List.any_eq_true.mpr ⟨r, hr, by simpa using hge'⟩)

lemma scanExitQuality_emits (db3 : DB) (coin : String) (d : Nat) (cd : DailyRecord)
    (hk3 : hasSpecialKey db3 d coin "quality_warning_exit" = false)
    (h3 : hasSpecialKey (scanExitQuality db3 coin d cd) d coin
      "quality_warning_exit" = true) :
    cd.phase_type = "退场期" ∧
    ∃ start, find_current_section_start_date db3 coin d "退场期" = some start ∧
      has_quality_warning_in_section db3 coin start d "quality_warning_exit" = false ∧
      (sectionData db3 coin start d).length = checkCount cd ∧
      (∀ r ∈ sectionData db3 coin start d, 0 ≤ r.break_index.getD 0) := by
  by_cases hph : cd.phase_type = "退场期"
  case neg =>
    have hscan : scanExitQuality db3 coin d cd = db3 := by
      unfold scanExitQuality
      rw [if_neg hph]
    rw [hscan] at h3
    rw [h3] at hk3
    exact Bool.noConfusion hk3
  case pos =>
  refine ⟨hph, ?_⟩
  rcases hss : find_current_section_start_date db3 coin d "退场期" with _ | start
  · have hscan : scanExitQuality db3 coin d cd = db3 := by
      unfold scanExitQuality
      rw [if_pos hph]
      simp only [hss]
    rw [hscan] at h3
    rw [h3] at hk3
    exact Bool.noConfusion hk3
  · rcases hg : has_quality_warning_in_section db3 coin start d
        "quality_warning_exit" with _ | _
    case true =>
      have hscan : scanExitQuality db3 coin d cd = db3 := by
        unfold scanExitQuality
        rw [if_pos hph]
        simp only [hss]
        rw [if_pos hg]
      rw [hscan] at h3
      rw [h3] at hk3
      exact Bool.noConfusion hk3
    case false =>
    by_cases hlen : (sectionData db3 coin start d).length = checkCount cd
    case neg =>
      have hscan : scanExitQuality db3 coin d cd = db3 := by
        unfold scanExitQuality
        rw [if_pos hph]
        simp only [hss]
        rw [if_neg (by simp [hg]), if_neg hlen]
      rw [hscan] at h3
      rw [h3] at hk3
      exact Bool.noConfusion hk3
    case pos =>
    by_cases hfin : ¬ ((sectionData db3 coin start d).any
        (fun x => decide (x.break_index.getD 0 < 0)) = true)
    case neg =>
      have hscan : scanExitQuality db3 coin d cd = db3 := by
        unfold scanExitQuality
        rw [if_pos hph]
        simp only [hss]
        rw [if_neg (by simp [hg]), if_pos hlen, if_neg hfin]
      rw [hscan] at h3
      rw [h3] at hk3
      exact Bool.noConfusion hk3
    case pos =>
      refine ⟨start, rfl, hg, hlen, ?_⟩
      intro r hr
      by_contra hneg
      have hneg' : r.break_index.getD 0 < 0 := not_le.mp hneg
      exact hfin (List.any_eq_true.mpr ⟨r, hr, by simpa using hneg'⟩)

lemma break_correction_or (nt : String) (b : ℤ) :
    calculate_break_index_correction nt b =
      if (nt = "enter_phase_day1" ∧ 200 < b) ∨ (nt = "exit_phase_day1" ∧ b < 0)
      then -2.5 else 0 := by
  unfold calculate_break_index_correction
  split_ifs with h1 h2 h3 h4 h5 <;> first | rfl | tauto

/-! ## Claim theorems -/

/-- C3: between two adjacent records whose break-index values straddle a
threshold, the interpolated off-chain index equals the fraction formula
of the source rounded Python-style, it lies between (or at) the two
off-chain indices, it degenerates to the earlier index when the break
values coincide, and the spec's worked example yields 1055. -/
theorem interpolation_spec :
    (∀ off1 off2 break1 break2 target : ℤ,
      (break1 ≠ break2 →
        interpolate_offchain_index off1 off2 break1 break2 target =
          pythonRound ((off1 : ℚ) + ((off2 : ℚ) - (off1 : ℚ)) *
            (((target : ℚ) - (break1 : ℚ)) / ((break2 : ℚ) - (break1 : ℚ))))) ∧
      (break1 = break2 →
        interpolate_offchain_index off1 off2 break1 break2 target = off1) ∧
      (break1 ≠ break2 → min break1 break2 ≤ target → target ≤ max break1 break2 →
        min off1 off2 ≤ interpolate_offchain_index off1 off2 break1 break2 target ∧
        interpolate_offchain_index off1 off2 break1 break2 target ≤ max off1 off2)) ∧
    interpolate_offchain_index 1020 1090 210 190 200 = 1055 := by
  refine ⟨fun off1 off2 break1 break2 target => ⟨?_, ?_, ?_⟩, by with_unfolding_all decide⟩
  · intro hne
    simp only [interpolate_offchain_index, if_neg hne]
  · intro heq
    simp only [interpolate_offchain_index, if_pos heq]
  · intro hne hlo hhi
    exact interpolate_between off1 off2 break1 break2 target hne hlo hhi

/-- Witness for C3 at the spec's worked example. -/
theorem interpolation_spec_witness :
    (210 : ℤ) ≠ 190 ∧ min (210 : ℤ) 190 ≤ 200 ∧ (200 : ℤ) ≤ max 210 190 ∧
    min (1020 : ℤ) 1090 ≤ interpolate_offchain_index 1020 1090 210 190 200 ∧
    interpolate_offchain_index 1020 1090 210 190 200 ≤ max (1020 : ℤ) 1090 := by
  refine ⟨by decide, by decide, by decide, ?_⟩
  exact (interpolation_spec.1 1020 1090 210 190 200).2.2 (by decide) (by decide) (by decide)

/-- C7: the quality classifier returns Excellent (优质) exactly above 5,
Average (一般) exactly on [-5, 5], Poor (劣质) exactly below -5, with the
four boundary examples of the spec. -/
theorem quality_rating_spec :
    (∀ p : ℚ,
      (get_quality_rating p = "优质" ↔ 5 < p) ∧
      (get_quality_rating p = "一般" ↔ -5 ≤ p ∧ p ≤ 5) ∧
      (get_quality_rating p = "劣质" ↔ p < -5)) ∧
    get_quality_rating 5 = "一般" ∧ get_quality_rating 5.01 = "优质" ∧
    get_quality_rating (-5) = "一般" ∧ get_quality_rating (-5.01) = "劣质" := by
  refine ⟨fun p => ?_, by with_unfolding_all decide, by with_unfolding_all decide,
    by with_unfolding_all decide, by with_unfolding_all decide⟩
  unfold get_quality_rating
  split_ifs with h1 h2
  · refine ⟨⟨fun _ => h1, fun _ => rfl⟩, ?_, ?_⟩
    · exact ⟨fun hs => absurd hs (by decide), fun ⟨_, h5⟩ => absurd h1 (not_lt.mpr h5)⟩
    · exact ⟨fun hs => absurd hs (by decide), fun h5 => absurd h1 (by intro _; linarith)⟩
  · refine ⟨?_, ⟨fun _ => ⟨h2, not_lt.mp h1⟩, fun _ => rfl⟩, ?_⟩
    · exact ⟨fun hs => absurd hs (by decide), fun h5 => absurd h5 h1⟩
    · exact ⟨fun hs => absurd hs (by decide), fun h5 => absurd h5 (not_lt.mpr h2)⟩
  · refine ⟨?_, ?_, ⟨fun _ => not_le.mp h2, fun _ => rfl⟩⟩
    · exact ⟨fun hs => absurd hs (by decide), fun h5 => absurd h5 h1⟩
    · exact ⟨fun hs => absurd hs (by decide), fun ⟨h5, _⟩ => absurd h5 h2⟩

/-- C2: the base change is the relative move times 100 with the sign
flipped in the exit phase (0 when the reference is 0), and for a nonzero
reference the ±5 phase-transition correction fires exactly when the
reference and current indices sit on opposite sides of 1000 under
half-open endpoint checks, with Entry and Exit using opposite signs;
the spec's example 900 → 1100 in Entry gives (+200/9 %, +5). -/
theorem change_percentage_spec :
    (∀ r c : ℚ,
      (r = 0 → calculate_change_percentage r c "进场期" = (0, 0) ∧
               calculate_change_percentage r c "退场期" = (0, 0)) ∧
      (r ≠ 0 →
        (calculate_change_percentage r c "进场期").1 = (c - r) / r * 100 ∧
        (calculate_change_percentage r c "退场期").1 = -((c - r) / r * 100)) ∧
      (r ≠ 0 →
        (((calculate_change_percentage r c "进场期").2 ≠ 0 ↔
            (r < 1000 ∧ 1000 ≤ c) ∨ (c < 1000 ∧ 1000 ≤ r)) ∧
         ((calculate_change_percentage r c "退场期").2 ≠ 0 ↔
            (r < 1000 ∧ 1000 ≤ c) ∨ (c < 1000 ∧ 1000 ≤ r)))) ∧
      (r ≠ 0 → r < 1000 → 1000 ≤ c →
        (calculate_change_percentage r c "进场期").2 = 5 ∧
        (calculate_change_percentage r c "退场期").2 = -5) ∧
      (r ≠ 0 → c < 1000 → 1000 ≤ r →
        (calculate_change_percentage r c "进场期").2 = -5 ∧
        (calculate_change_percentage r c "退场期").2 = 5)) ∧
    calculate_change_percentage 900 1100 "进场期" = (200/9, 5) := by
  constructor
  · intro r c
    refine ⟨fun h0 => ?_, fun hr => ?_, fun hr => ?_, fun hr h1 h2 => ?_, fun hr h1 h2 => ?_⟩
    · simp [calculate_change_percentage, h0]
    · simp only [calculate_change_percentage, if_neg hr]
      exact ⟨by simp, by simp⟩
    · constructor <;>
      · simp only [calculate_change_percentage, if_neg hr]
        by_cases hcross : (r < 1000 ∧ 1000 ≤ c) ∨ (c < 1000 ∧ 1000 ≤ r)
        · rw [if_pos hcross]
          simp only [hcross, iff_true]
          have hne : r ≠ c := by
            rcases hcross with ⟨ha, hb⟩ | ⟨ha, hb⟩ <;> intro he <;> subst he <;> linarith
          split_ifs <;> norm_num
        · rw [if_neg hcross]
          simp [hcross]
    · have hup : r < c := lt_of_lt_of_le h1 h2
      simp only [calculate_change_percentage, if_neg hr]
      constructor <;> rw [if_pos (Or.inl ⟨h1, h2⟩)] <;> simp [hup]
    · have hdown : ¬ (r < c) := by intro h; linarith
      simp only [calculate_change_percentage, if_neg hr]
      constructor <;> rw [if_pos (Or.inr ⟨h1, h2⟩)] <;> simp [hdown]
  · with_unfolding_all decide

/-- Witness for C2 at the spec's example: reference 900, current 1100. -/
theorem change_percentage_spec_witness :
    (900 : ℚ) ≠ 0 ∧ (900 : ℚ) < 1000 ∧ (1000 : ℚ) ≤ 1100 ∧
    (calculate_change_percentage 900 1100 "进场期").2 = 5 ∧
    (calculate_change_percentage 900 1100 "退场期").2 = -5 := by
  refine ⟨by norm_num, by norm_num, by norm_num, ?_⟩
  exact (change_percentage_spec.1 900 1100).2.2.2.1 (by norm_num) (by norm_num) (by norm_num)

/-- C5: the node detector fires EnterDay1 exactly on entry-phase day-1
records and ExitDay1 exactly on exit-phase day-1 records; otherwise it
returns nothing when no earlier record exists, and with an earlier
record it fires BreakDown200 exactly on a 200-straddling drop of the
break index, BreakUp0 exactly on a negative-to-nonnegative move, and
nothing in every remaining case. -/
theorem detect_key_node_spec :
    ∀ (db : DB) (coin : String) (cd : DailyRecord),
      (detect_key_node db coin cd = some "enter_phase_day1" ↔
        cd.phase_type = "进场期" ∧ cd.phase_days = some 1) ∧
      (detect_key_node db coin cd = some "exit_phase_day1" ↔
        cd.phase_type = "退场期" ∧ cd.phase_days = some 1) ∧
      (¬ (cd.phase_type = "进场期" ∧ cd.phase_days = some 1) →
       ¬ (cd.phase_type = "退场期" ∧ cd.phase_days = some 1) →
        get_previous_day_data db coin cd.date = none →
        detect_key_node db coin cd = none) ∧
      (∀ prev pb cb,
        get_previous_day_data db coin cd.date = some prev →
        prev.break_index = some pb → cd.break_index = some cb →
        ¬ (cd.phase_type = "进场期" ∧ cd.phase_days = some 1) →
        ¬ (cd.phase_type = "退场期" ∧ cd.phase_days = some 1) →
        ((detect_key_node db coin cd = some "break_200" ↔ pb ≥ 200 ∧ cb < 200) ∧
         (detect_key_node db coin cd = some "break_0" ↔ pb < 0 ∧ cb ≥ 0) ∧
         (detect_key_node db coin cd = none ↔
           ¬ (pb ≥ 200 ∧ cb < 200) ∧ ¬ (pb < 0 ∧ cb ≥ 0)))) := by
  intro db coin cd
  by_cases h1 : cd.phase_type = "进场期" ∧ cd.phase_days = some 1
  · have h2 : ¬ (cd.phase_type = "退场期" ∧ cd.phase_days = some 1) := by
      rintro ⟨he, -⟩
      rw [h1.1] at he
      exact absurd he (by decide)
    refine ⟨?_, ?_, fun h1' _ _ => absurd h1 h1', fun prev pb cb _ _ _ h1' _ => absurd h1 h1'⟩
    · simp [detect_key_node, h1]
    · simp only [detect_key_node, if_pos h1]
      exact ⟨fun hs => absurd (Option.some.inj hs) (by decide), fun hx => absurd hx h2⟩
  · by_cases h2 : cd.phase_type = "退场期" ∧ cd.phase_days = some 1
    · refine ⟨?_, ?_, fun _ h2' _ => absurd h2 h2', fun prev pb cb _ _ _ _ h2' => absurd h2 h2'⟩
      · simp only [detect_key_node, if_neg h1, if_pos h2]
        exact ⟨fun hs => absurd (Option.some.inj hs) (by decide), fun hx => absurd hx h1⟩
      · simp [detect_key_node, if_neg h1, h2]
    · refine ⟨?_, ?_, fun _ _ hnone => ?_, fun prev pb cb hprev hpb hcb _ _ => ?_⟩
      · simp only [detect_key_node, if_neg h1, if_neg h2]
        constructor
        · rcases hp : get_previous_day_data db coin cd.date with _ | prev
          · simp [hp]
          · rcases hcb : cd.break_index with _ | cb
            · simp [hp, hcb]
            · rcases hpb : prev.break_index with _ | pb
              · simp [hp, hcb, hpb]
              · simp only [hp, hcb, hpb]
                split_ifs with hb1 hb2
                · exact fun hs => absurd (Option.some.inj hs) (by decide)
                · exact fun hs => absurd (Option.some.inj hs) (by decide)
                · exact fun hs => absurd hs (by simp)
        · exact fun hx => absurd hx h1
      · simp only [detect_key_node, if_neg h1, if_neg h2]
        constructor
        · rcases hp : get_previous_day_data db coin cd.date with _ | prev
          · simp [hp]
          · rcases hcb : cd.break_index with _ | cb
            · simp [hp, hcb]
            · rcases hpb : prev.break_index with _ | pb
              · simp [hp, hcb, hpb]
              · simp only [hp, hcb, hpb]
                split_ifs with hb1 hb2
                · exact fun hs => absurd (Option.some.inj hs) (by decide)
                · exact fun hs => absurd (Option.some.inj hs) (by decide)
                · exact fun hs => absurd hs (by simp)
        · exact fun hx => absurd hx h2
      · simp [detect_key_node, if_neg h1, if_neg h2, hnone]
      · simp only [detect_key_node, if_neg h1, if_neg h2, hprev, hpb, hcb]
        refine ⟨?_, ?_, ?_⟩
        · split_ifs with hb1 hb2
          · simp [hb1]
          · exact ⟨fun hs => absurd (Option.some.inj hs) (by decide), fun hx => absurd hx hb1⟩
          · exact ⟨fun hs => absurd hs (by simp), fun hx => absurd hx hb1⟩
        · split_ifs with hb1 hb2
          · refine ⟨fun hs => absurd (Option.some.inj hs) (by decide), fun ⟨hneg, _⟩ => ?_⟩
            exact absurd hb1.1 (by omega)
          · simp [hb2]
          · exact ⟨fun hs => absurd hs (by simp), fun hx => absurd hx hb2⟩
        · split_ifs with hb1 hb2
          · exact ⟨fun hs => absurd hs (by simp), fun ⟨hx, _⟩ => absurd hb1 hx⟩
          · exact ⟨fun hs => absurd hs (by simp), fun ⟨_, hx⟩ => absurd hb2 hx⟩
          · exact ⟨fun _ => ⟨hb1, hb2⟩, fun _ => rfl⟩

/-- C8: insert_special_node is idempotent on the unique key
(date, asset, node_type): the second call with an identical key is a
no-op (whatever description it carries), the store then holds exactly
one row with that key, and no other row and no daily record changes. -/
theorem insert_special_node_idempotent :
    ∀ (db : DB) (date : Nat) (coin t d1 d2 : String) (o1 b1 o2 b2 : Option ℤ),
      specialKeyCount db date coin t ≤ 1 →
      (insert_special_node (insert_special_node db date coin t d1 o1 b1)
          date coin t d2 o2 b2 =
        insert_special_node db date coin t d1 o1 b1) ∧
      specialKeyCount (insert_special_node (insert_special_node db date coin t d1 o1 b1)
          date coin t d2 o2 b2) date coin t = 1 ∧
      ((insert_special_node db date coin t d1 o1 b1).specials.filter
          (fun s => !(decide (s.date = date ∧ s.coin = coin ∧ s.node_type = t))) =
        db.specials.filter
          (fun s => !(decide (s.date = date ∧ s.coin = coin ∧ s.node_type = t)))) ∧
      (insert_special_node db date coin t d1 o1 b1).records = db.records := by
  intro db date coin t d1 d2 o1 b1 o2 b2 hle
  have hnoop :
      insert_special_node (insert_special_node db date coin t d1 o1 b1)
        date coin t d2 o2 b2 = insert_special_node db date coin t d1 o1 b1 := by
    set db1 := insert_special_node db date coin t d1 o1 b1 with hdb1
    have hk : hasSpecialKey db1 date coin t = true := by
      rw [hdb1]
      exact hasSpecialKey_insert_self db date coin t d1 o1 b1
    unfold insert_special_node
    rw [if_pos hk]
  refine ⟨hnoop, ?_, ?_, insert_special_node_records db date coin t d1 o1 b1⟩
  · rw [hnoop]
    unfold insert_special_node
    split_ifs with h
    · have h1 := (hasSpecialKey_iff_count_pos db date coin t).mp h
      omega
    · have h0 : specialKeyCount db date coin t = 0 := by
        by_contra hne
        exact h ((hasSpecialKey_iff_count_pos db date coin t).mpr (by omega))
      unfold specialKeyCount at h0 ⊢
      simp only [List.filter_append, List.length_append, h0]
      simp
  · unfold insert_special_node
    split_ifs with h
    · rfl
    · simp [List.filter_append]

/-- C1: whenever analyze_coin produces a result, its final percentage
is exactly the sum of the base change, the phase-transition correction,
the benchmark-divergence correction, the break-index correction and the
approaching correction, where the break-index term is -2.5 precisely on
an EnterDay1 node with break index above 200 or an ExitDay1 node with
negative break index, and the approaching term is -5 precisely when the
day's record carries the is_approaching flag. -/
theorem analyze_final_percentage_spec :
    ∀ (db : DB) (coin : String) (d : Nat) (res : AnalysisResult),
      analyze_coin db coin d = some res →
      ∃ cd, get_coin_data db coin d = some cd ∧
        res.final_percentage = res.change_percentage + res.phase_correction +
          res.divergence_correction + res.break_index_correction +
          res.approaching_correction ∧
        res.break_index_correction =
          (if (res.node_type = "enter_phase_day1" ∧ 200 < cd.break_index.getD 0) ∨
              (res.node_type = "exit_phase_day1" ∧ cd.break_index.getD 0 < 0)
           then -2.5 else 0) ∧
        res.approaching_correction = (if cd.is_approaching = 1 then -5 else 0) := by
  intro db coin d res h
  rcases hget : get_coin_data db coin d with _ | cd
  · simp only [analyze_coin, hget] at h
    exact Option.noConfusion h
  · rcases hdet : detect_key_node db coin cd with _ | nt
    · simp only [analyze_coin, hget, hdet] at h
      exact Option.noConfusion h
    · rcases href : find_reference_node db coin d nt with _ | ref
      · simp only [analyze_coin, hget, hdet, href] at h
        exact Option.noConfusion h
      · simp only [analyze_coin, hget, hdet, href] at h
        obtain rfl := (Option.some.inj h).symm
        exact ⟨cd, rfl, rfl, break_correction_or nt (cd.break_index.getD 0), rfl⟩

/-- Witness for C1 on the approaching-flagged re-entry fixture. -/
theorem analyze_final_percentage_spec_witness :
    ∃ cd, get_coin_data approachDB "TEST" 2 = some cd ∧
      approachResult.final_percentage = approachResult.change_percentage +
        approachResult.phase_correction + approachResult.divergence_correction +
        approachResult.break_index_correction + approachResult.approaching_correction ∧
      approachResult.break_index_correction =
        (if (approachResult.node_type = "enter_phase_day1" ∧ 200 < cd.break_index.getD 0) ∨
            (approachResult.node_type = "exit_phase_day1" ∧ cd.break_index.getD 0 < 0)
         then -2.5 else 0) ∧
      approachResult.approaching_correction = (if cd.is_approaching = 1 then -5 else 0) :=
  analyze_final_percentage_spec approachDB "TEST" 2 approachResult
    (by with_unfolding_all rfl)

/-- C4: for each of the four key-node types the reference resolver
returns a member of the node-type-specific candidate set carrying the
most recent date, returns nothing exactly when that set is empty (in
which case the day produces no analysis result), and on a history
EnterDay1 → BreakDown200 → BreakDown200 the second crossing's reference
resolves to the first crossing's date (5), not the EnterDay1 date (1). -/
theorem reference_resolver_spec :
    (∀ (db : DB) (coin : String) (d : Nat) (nt : String),
      nt = "enter_phase_day1" ∨ nt = "exit_phase_day1" ∨
        nt = "break_200" ∨ nt = "break_0" →
      ((find_reference_node db coin d nt = none ↔
          reference_candidates db coin d nt = []) ∧
       (∀ res, find_reference_node db coin d nt = some res →
          res ∈ reference_candidates db coin d nt ∧
          ∀ c ∈ reference_candidates db coin d nt, c.date ≤ res.date))) ∧
    (∀ (db : DB) (coin : String) (d : Nat) (nt : String) (cd : DailyRecord),
      get_coin_data db coin d = some cd →
      detect_key_node db coin cd = some nt →
      find_reference_node db coin d nt = none →
      analyze_coin db coin d = none) ∧
    ((find_reference_node scenarioDB "TEST" 8 "break_200").map RefNode.date = some 5 ∧
     (find_last_phase_node scenarioDB "TEST" "进场期" 8).map Prod.fst = some 1) := by
  refine ⟨?_, ?_, by with_unfolding_all decide, by with_unfolding_all decide⟩
  · intro db coin d nt hnt
    have heq : find_reference_node db coin d nt =
        pickLatest (reference_candidates db coin d nt) := by
      unfold find_reference_node
      rw [if_pos hnt]
    rw [heq]
    exact pickLatest_spec (reference_candidates db coin d nt)
  · intro db coin d nt cd hget hdet href
    simp only [analyze_coin, hget, hdet, href]

/-- Witness for C4: a lone first entry record has no candidates and
yields no analysis result. -/
theorem reference_resolver_spec_witness :
    analyze_coin loneDB "SOLO" 1 = none ∧
    reference_candidates loneDB "SOLO" 1 "enter_phase_day1" = [] := by
  constructor
  · exact reference_resolver_spec.2.1 loneDB "SOLO" 1 "enter_phase_day1"
      (plainRec 1 "SOLO" "进场期" 1 500 100) (by decide) (by decide) (by decide)
  · exact (reference_resolver_spec.1 loneDB "SOLO" 1 "enter_phase_day1"
      (Or.inl rfl)).1.mp (by decide)

/-- C9: the special-node scan emits a quality warning only when the
emission conditions of the source hold on the current sub-cycle: the
record count since the sub-cycle start (as resolved by the scan) equals
exactly N (14 for benchmark-equity assets, 7 otherwise), no prior
warning of the same type exists in the sub-cycle's date span (which is
what makes the warning fire at most once per sub-cycle), the break
index never reached the relevant extreme (200 in Entry; below 0 in
Exit), and, in Entry, the half-average test over the observed
(date-descending) break values reports a decline. -/
theorem quality_warning_scan_spec :
    ∀ (db : DB) (coin : String) (d : Nat) (cd : DailyRecord),
      (hasSpecialKey db d coin "quality_warning_entry" = false →
       hasSpecialKey (detect_special_nodes db coin d cd) d coin
         "quality_warning_entry" = true →
       cd.phase_type = "进场期" ∧
       ∃ start, find_current_section_start_date db coin d "进场期" = some start ∧
         has_quality_warning_in_section db coin start d "quality_warning_entry" = false ∧
         (sectionData db coin start d).length = checkCount cd ∧
         (∀ r ∈ sectionData db coin start d, r.break_index.getD 0 < 200) ∧
         2 ≤ (sectionBreakIndices (sectionData db coin start d)).length ∧
         decliningTrend (sectionBreakIndices (sectionData db coin start d)) = true) ∧
      (hasSpecialKey db d coin "quality_warning_exit" = false →
       hasSpecialKey (detect_special_nodes db coin d cd) d coin
         "quality_warning_exit" = true →
       cd.phase_type = "退场期" ∧
       ∃ start, find_current_section_start_date db coin d "退场期" = some start ∧
         has_quality_warning_in_section db coin start d "quality_warning_exit" = false ∧
         (sectionData db coin start d).length = checkCount cd ∧
         (∀ r ∈ sectionData db coin start d, 0 ≤ r.break_index.getD 0)) := by
  intro db coin d cd
  have records2 : (scanCrossings (scanApproaching db coin d cd) coin d cd).records =
      db.records := by
    rw [scanCrossings_records, scanApproaching_records]
  constructor
  · intro h1 h2
    unfold detect_special_nodes at h2
    rw [hasSpecialKey_scanExitQuality (by decide)] at h2
    have hk2 : hasSpecialKey (scanCrossings (scanApproaching db coin d cd) coin d cd)
        d coin "quality_warning_entry" = false := by
      rw [hasSpecialKey_scanCrossings (by decide) (by decide) (by decide),
        hasSpecialKey_scanApproaching (by decide)]
      exact h1
    obtain ⟨hph, start, hss, hg, hlen, hlt, hbl, hdec⟩ :=
      scanEntryQuality_emits _ coin d cd hk2 h2
    have hsd : sectionData (scanCrossings (scanApproaching db coin d cd) coin d cd)
        coin start d = sectionData db coin start d := sectionData_congr records2 coin start d
    refine ⟨hph, start, ?_, ?_, ?_, ?_, ?_, ?_⟩
    · rw [← find_section_start_congr records2]
      exact hss
    · rw [← hqw_scanApproaching (by decide) db coin d cd coin start d,
        ← hqw_scanCrossings (by decide) (by decide) (by decide)
          (scanApproaching db coin d cd) coin d cd coin start d]
      exact hg
    · rw [← hsd]
      exact hlen
    · intro r hr
      exact hlt r (by rw [hsd]; exact hr)
    · rw [← hsd]
      exact hbl
    · rw [← hsd]
      exact hdec
  · intro h1 h2
    unfold detect_special_nodes at h2
    have records3 : (scanEntryQuality
        (scanCrossings (scanApproaching db coin d cd) coin d cd) coin d cd).records =
        db.records := by
      rw [scanEntryQuality_records]
      exact records2
    have hk3 : hasSpecialKey (scanEntryQuality
        (scanCrossings (scanApproaching db coin d cd) coin d cd) coin d cd)
        d coin "quality_warning_exit" = false := by
      rw [hasSpecialKey_scanEntryQuality (by decide),
        hasSpecialKey_scanCrossings (by decide) (by decide) (by decide),
        hasSpecialKey_scanApproaching (by decide)]
      exact h1
    obtain ⟨hph, start, hss, hg, hlen, hge⟩ :=
      scanExitQuality_emits _ coin d cd hk3 h2
    have hsd : sectionData (scanEntryQuality
        (scanCrossings (scanApproaching db coin d cd) coin d cd) coin d cd)
        coin start d = sectionData db coin start d := sectionData_congr records3 coin start d
    refine ⟨hph, start, ?_, ?_, ?_, ?_⟩
    · rw [← find_section_start_congr records3]
      exact hss
    · rw [← hqw_scanApproaching (by decide) db coin d cd coin start d,
        ← hqw_scanCrossings (by decide) (by decide) (by decide)
          (scanApproaching db coin d cd) coin d cd coin start d,
        ← hqw_scanEntryQuality (by decide)
          (scanCrossings (scanApproaching db coin d cd) coin d cd) coin d cd coin start d]
      exact hg
    · rw [← hsd]
      exact hlen
    · intro r hr
      exact hge r (by rw [hsd]; exact hr)

/-- Witness for C9: both quality warnings fire on their seven-update
fixtures, and the theorem recovers the emission conditions there. -/
theorem quality_warning_scan_spec_witness :
    (warnRec.phase_type = "进场期" ∧
     ∃ start, find_current_section_start_date warnDB "TEST" 7 "进场期" = some start ∧
       has_quality_warning_in_section warnDB "TEST" start 7 "quality_warning_entry" = false ∧
       (sectionData warnDB "TEST" start 7).length = checkCount warnRec ∧
       (∀ r ∈ sectionData warnDB "TEST" start 7, r.break_index.getD 0 < 200) ∧
       2 ≤ (sectionBreakIndices (sectionData warnDB "TEST" start 7)).length ∧
       decliningTrend (sectionBreakIndices (sectionData warnDB "TEST" start 7)) = true) ∧
    (exitWarnRec.phase_type = "退场期" ∧
     ∃ start, find_current_section_start_date exitWarnDB "TEST" 7 "退场期" = some start ∧
       has_quality_warning_in_section exitWarnDB "TEST" start 7
         "quality_warning_exit" = false ∧
       (sectionData exitWarnDB "TEST" start 7).length = checkCount exitWarnRec ∧
       (∀ r ∈ sectionData exitWarnDB "TEST" start 7, 0 ≤ r.break_index.getD 0)) :=
  ⟨(quality_warning_scan_spec warnDB "TEST" 7 warnRec).1 (by decide)
      (by with_unfolding_all rfl),
   (quality_warning_scan_spec exitWarnDB "TEST" 7 exitWarnRec).2 (by decide)
      (by with_unfolding_all rfl)⟩

/-- C6 (evaluation at the failing input): the divergence computation
only consults the is_us_stock flag, so a domestic A-share record
(is_cn_stock = 1, is_us_stock = 0) in the entry phase is charged the
full -10 NASDAQ divergence instead of being skipped, while a
benchmark-equity record is skipped as claimed. -/
theorem divergence_cn_stock_eval :
    cnStockRec.is_cn_stock = 1 ∧ cnStockRec.is_us_stock = 0 ∧
    (calculate_benchmark_divergence_correction cnStockDB "CNETF" 5 cnStockRec).1 = -10 ∧
    (calculate_benchmark_divergence_correction cnStockDB "CNETF" 5 cnStockRec).1 ≠ 0 ∧
    calculate_benchmark_divergence_correction cnStockDB "NASDAQ" 5
      ⟨5, "NASDAQ", "退场期", some 2, 900, some 50, 0, 1, 0, 0⟩ = (0, []) := by
  refine ⟨by decide, by decide, ?_, ?_, ?_⟩ <;> with_unfolding_all decide

/-- C10: the benchmark-divergence total always equals the sum of the
weights in its breakdown, the breakdown names are pairwise distinct
with each (name, weight) pair drawn from the fixed benchmark table, and
the total lies in [-20.5, 0]; the store's primary key guarantees the
leader rows of one date carry distinct names, taken as hypothesis. -/
theorem divergence_breakdown_invariant :
    ∀ (db : DB) (coin : String) (d : Nat) (cd : DailyRecord),
      ((get_dragon_leaders db d).map DailyRecord.coin).Nodup →
      ((calculate_benchmark_divergence_correction db coin d cd).1 =
        (((calculate_benchmark_divergence_correction db coin d cd).2).map Prod.snd).sum ∧
       (((calculate_benchmark_divergence_correction db coin d cd).2).map Prod.fst).Nodup ∧
       (∀ e ∈ (calculate_benchmark_divergence_correction db coin d cd).2,
          e ∈ benchmarkWeights) ∧
       -20.5 ≤ (calculate_benchmark_divergence_correction db coin d cd).1 ∧
       (calculate_benchmark_divergence_correction db coin d cd).1 ≤ 0) := by
  intro db coin d cd hnodup
  obtain ⟨pre, hcalc, hsum, hkeys, hmem, hNB⟩ := divergence_prefix_good db coin d cd
  have hmain :
      (calculate_benchmark_divergence_correction db coin d cd).1 =
        (((calculate_benchmark_divergence_correction db coin d cd).2).map Prod.snd).sum ∧
      (((calculate_benchmark_divergence_correction db coin d cd).2).map Prod.fst).Nodup ∧
      (∀ e ∈ (calculate_benchmark_divergence_correction db coin d cd).2,
        e ∈ benchmarkWeights) := by
    rw [hcalc]
    split_ifs with hcond
    · refine leaders_fold_inv cd.phase_type (get_dragon_leaders db d) pre hnodup
        ?_ hsum hkeys hmem
      intro l hl hs e he
      rcases hNB e he with h | h <;>
        rcases dragon_lookup_isSome_coin hs with hc | hc | hc | hc <;>
          rw [h, hc] <;> decide
    · exact ⟨hsum, hkeys, hmem⟩
  obtain ⟨h1, h2, h3⟩ := hmain
  refine ⟨h1, h2, h3, ?_, ?_⟩
  · have hge := sumW_ge _ benchmarkWeights h2 h3 (fun e he => benchmark_weight_nonpos he)
    have hmaster : ((benchmarkWeights.map Prod.snd).sum : ℚ) = -20.5 := by
      norm_num [benchmarkWeights, dragon_weights]
    rw [h1]
    rw [hmaster] at hge
    exact hge
  · rw [h1]
    refine sum_nonpos_of _ ?_
    intro x hx
    obtain ⟨e, he, hex⟩ := List.mem_map.mp hx
    exact hex ▸ benchmark_weight_nonpos (h3 e he)

/-- Witness for C10 on the domestic A-share fixture (two rows, no
leader rows, so the leader names are trivially distinct). -/
theorem divergence_breakdown_invariant_witness :
    ((get_dragon_leaders cnStockDB 5).map DailyRecord.coin).Nodup ∧
    ((calculate_benchmark_divergence_correction cnStockDB "CNETF" 5 cnStockRec).1 =
      (((calculate_benchmark_divergence_correction cnStockDB "CNETF" 5 cnStockRec).2).map
        Prod.snd).sum ∧
     (((calculate_benchmark_divergence_correction cnStockDB "CNETF" 5 cnStockRec).2).map
        Prod.fst).Nodup ∧
     (∀ e ∈ (calculate_benchmark_divergence_correction cnStockDB "CNETF" 5 cnStockRec).2,
        e ∈ benchmarkWeights) ∧
     -20.5 ≤ (calculate_benchmark_divergence_correction cnStockDB "CNETF" 5 cnStockRec).1 ∧
     (calculate_benchmark_divergence_correction cnStockDB "CNETF" 5 cnStockRec).1 ≤ 0) :=
  ⟨by decide, divergence_breakdown_invariant cnStockDB "CNETF" 5 cnStockRec (by decide)⟩

/-- Witness for C8: double insertion into an empty store. -/
theorem insert_special_node_idempotent_witness :
    (insert_special_node (insert_special_node ⟨[], []⟩ 3 "BTC" "approaching" "a" none none)
        3 "BTC" "approaching" "b" none none =
      insert_special_node ⟨[], []⟩ 3 "BTC" "approaching" "a" none none) ∧
    specialKeyCount (insert_special_node
        (insert_special_node ⟨[], []⟩ 3 "BTC" "approaching" "a" none none)
        3 "BTC" "approaching" "b" none none) 3 "BTC" "approaching" = 1 := by
  have h := insert_special_node_idempotent ⟨[], []⟩ 3 "BTC" "approaching" "a" "b"
    none none none none (by decide)
  exact ⟨h.1, h.2.1⟩

/-- Witness for C5 on the second break-200 crossing of the fixture
timeline. -/
theorem detect_key_node_spec_witness :
    detect_key_node scenarioDB "TEST" (plainRec 8 "TEST" "进场期" 8 1090 190) =
        some "break_200" ∧
    (190 : ℤ) < 200 ∧ (240 : ℤ) ≥ 200 := by
  refine ⟨?_, by decide, by decide⟩
  exact ((detect_key_node_spec scenarioDB "TEST"
      (plainRec 8 "TEST" "进场期" 8 1090 190)).2.2.2
      (plainRec 7 "TEST" "进场期" 7 1060 240) 240 190
      (by decide) (by decide) (by decide) (by decide) (by decide)).1.mpr (by decide)

end Mag
